import Mathlib

set_option maxRecDepth 8000
set_option maxHeartbeats 1000000

/-!
Shallow embedding of the figma-variables CSS transformer (src/index.js).

The core of the repository is a pure pipeline
  text → raw variable table → {primitives, lightMode, darkMode} → output text.
JS strings are modelled as Lean `String` (operated on through `List Char`),
JS numbers as exact rationals plus a `NaN` marker (the inputs handled by the
tool are decimal literals, for which exact arithmetic agrees with binary64 on
every rendered digit), JS objects as association lists with
insertion-order-preserving update, and a thrown exception as `none` at the
`Option` level of the surrounding function.
-/

/-! ### Character-list utilities mirroring JS string primitives -/

/-- Is `p` a prefix of `s` (character lists)? -/
def startsWithL : List Char → List Char → Bool
  | [], _ => true
  | _ :: _, [] => false
  | p :: ps, c :: cs => p == c && startsWithL ps cs

/-- JS `s.startsWith(pat)`. -/
def jsStartsWith (s pat : String) : Bool := startsWithL pat.data s.data

/-- JS `s.endsWith(pat)`. -/
def jsEndsWith (s pat : String) : Bool := startsWithL pat.data.reverse s.data.reverse

/-- Drop `n` characters from the end of a string. -/
def dropEndS (s : String) (n : Nat) : String :=
  String.mk (s.data.take (s.data.length - n))

/-- JS `s.replace(/pat$/, "")` for a literal suffix pattern. -/
def stripSuffixS (s pat : String) : String :=
  if jsEndsWith s pat then dropEndS s pat.data.length else s

/-- Model of an anchored `s.replace(/^pat/, rep)` for a literal prefix pattern. -/
def replaceAnchored (pat rep : String) (s : String) : String :=
  if jsStartsWith s pat then rep ++ String.mk (s.data.drop pat.data.length) else s

/-- JS whitespace for `trim` (the characters that occur in this tool's inputs). -/
def isWsChar (c : Char) : Bool := c == ' ' || c == '\t' || c == '\n' || c == '\r'

/-- JS `s.trim()`. -/
def jsTrim (s : String) : String :=
  String.mk (((s.data.dropWhile isWsChar).reverse.dropWhile isWsChar).reverse)

/-- First index at which `pat` occurs in `hay` (substring search). -/
def indexOfL (pat : List Char) : List Char → Option Nat
  | [] => if pat.isEmpty then some 0 else none
  | c :: cs =>
    if startsWithL pat (c :: cs) then some 0
    else (indexOfL pat cs).map (· + 1)

/-- JS `s.includes(pat)`. -/
def jsIncludes (s pat : String) : Bool := (indexOfL pat.data s.data).isSome

/-- First index of `pat` in `s`, as JS `s.indexOf(pat)` would report (−1 ↦ `none`). -/
def jsIndexOf (s pat : String) : Option Nat := indexOfL pat.data s.data

/-- JS non-regex `s.replace(pat, rep)`: replace the first occurrence only. -/
def replaceFirstL (pat rep : List Char) : List Char → List Char
  | [] => []
  | c :: cs =>
    if startsWithL pat (c :: cs) then
      if pat.isEmpty then rep ++ c :: cs
      else rep ++ (c :: cs).drop pat.length
    else c :: replaceFirstL pat rep cs

/-- JS non-regex `s.replace(pat, rep)` on strings. -/
def jsReplaceFirst (s pat rep : String) : String :=
  String.mk (replaceFirstL pat.data rep.data s.data)

/-- JS `text.split("\n")`. -/
def splitOnNl : List Char → List (List Char)
  | [] => [[]]
  | c :: cs =>
    match splitOnNl cs with
    | [] => [[]]
    | r :: rs => if c == '\n' then [] :: r :: rs else (c :: r) :: rs

/-! ### JS objects as association lists

JS object keys keep their first-insertion position; assignment to an existing
key updates the value in place, and `Object.entries` iterates in that order. -/

/-- JS property read `t[k]` (`none` = `undefined`). -/
def jsGetG {α : Type} (t : List (String × α)) (k : String) : Option α :=
  (t.find? (fun p => p.1 == k)).map (fun p => p.2)

/-- JS property write `t[k] = v`. -/
def jsSetG {α : Type} (t : List (String × α)) (k : String) (v : α) : List (String × α) :=
  if t.any (fun p => p.1 == k) then
    t.map (fun p => if p.1 == k then (k, v) else p)
  else t ++ [(k, v)]

/-- The keys of a JS object, in iteration order. -/
def keysOf {α : Type} (t : List (String × α)) : List String := t.map (·.1)

/-- Truthiness of a JS string (`""` is falsy). -/
def jsTruthyS : Option String → Bool
  | some s => s ≠ ""
  | none => false

abbrev Table := List (String × String)

/-! ### `simplifyName` (src/index.js lines 193–202)

The source chains seven anchored `.replace(/^…/, …)` calls. -/

/-- `simplifyName` from src/index.js: strip a duplicated self-referential prefix
and remap `typography-font-` to `font-family-`. -/
def simplifyName (name : String) : String :=
  replaceAnchored "typography-font-" "font-family-"
    (replaceAnchored "outline-outline-" "outline-"
      (replaceAnchored "icon-icon-" "icon-"
        (replaceAnchored "text-text-" "text-"
          (replaceAnchored "surface-surface-" "surface-"
            (replaceAnchored "size-size-" "size-"
              (replaceAnchored "border-border-" "border-" name))))))

/-! ### `simplifyVariableReferences` (src/index.js lines 207–216)

`value.replace(/var\(--([^)]+)\)/g, …)` rewrites every `var(--X)` reference by
name simplification of `X`.  The capture `[^)]+` is the nonempty run of
non-`)` characters after `var(--`, which must be followed by `)`. -/

/-- Try to read `var(--X)` at the head of the character list; on success return
the captured `X` and the remainder after the closing parenthesis. -/
def matchVarRef (cs : List Char) : Option (List Char × List Char) :=
  if startsWithL "var(--".data cs then
    let rest := cs.drop 6
    let cap := rest.takeWhile (fun c => c ≠ ')')
    if cap.isEmpty then none
    else match rest.drop cap.length with
      | ')' :: after => some (cap, after)
      | _ => none
  else none

/-- One left-to-right pass of the global regex replace in
`simplifyVariableReferences`, with fuel bounding the scan length. -/
def simplifyVarRefsGo : Nat → List Char → List Char
  | 0, cs => cs
  | fuel + 1, cs =>
    match cs with
    | [] => []
    | c :: rest =>
      match matchVarRef (c :: rest) with
      | some (cap, after) =>
        "var(--".data ++ (simplifyName (String.mk cap)).data ++ [')'] ++
          simplifyVarRefsGo fuel after
      | none => c :: simplifyVarRefsGo fuel rest

/-- `simplifyVariableReferences` from src/index.js: rewrite every `var(--X)`
reference in a value by applying `simplifyName` to `X`. -/
def simplifyVariableReferences (value : String) : String :=
  if jsIncludes value "var(--" then
    String.mk (simplifyVarRefsGo value.data.length value.data)
  else value

example : simplifyVariableReferences "var(--surface-surface-x)" = "var(--surface-x)" := by decide
example : simplifyName "border-border-border-a" = "border-border-a" := by decide
example : simplifyName "typography-font-sans" = "font-family-sans" := by decide

/-! ### `parseVariables` (src/index.js lines 64–76)

The global regex `--([^:]+):\s*([^;]+);` (flag g) is scanned left to right.  At a
match position: `--`, then a nonempty run of non-`:` characters (greedy, i.e.
exactly the text up to the first `:`), then `:`, then the combination
`\s*([^;]+)` which succeeds iff at least one character precedes the next `;`;
since the capture is trimmed afterwards, the trimmed capture equals the trim
of everything between `:` and the first `;`.  On failure the scan advances one
character; on success it continues after the `;`. -/

/-- Try to match the declaration regex at the head of the list.  Returns
`(name, value, rest)` with `name`/`value` already trimmed. -/
def matchDecl (cs : List Char) : Option (String × String × List Char) :=
  if startsWithL "--".data cs then
    let afterDashes := cs.drop 2
    let nameSeg := afterDashes.takeWhile (fun c => c ≠ ':')
    if nameSeg.isEmpty then none
    else match afterDashes.drop nameSeg.length with
      | ':' :: afterColon =>
        let valSeg := afterColon.takeWhile (fun c => c ≠ ';')
        if valSeg.isEmpty then none
        else match afterColon.drop valSeg.length with
          | ';' :: rest =>
            some (jsTrim (String.mk nameSeg), jsTrim (String.mk valSeg), rest)
          | _ => none
      | _ => none
  else none

/-- Scanner loop for `parseVariables`, with fuel bounding the scan length. -/
def parseVarsGo : Nat → List Char → Table → Table
  | 0, _, acc => acc
  | fuel + 1, cs, acc =>
    match cs with
    | [] => acc
    | c :: rest =>
      match matchDecl (c :: rest) with
      | some (name, value, after) =>
        parseVarsGo fuel after (jsSetG acc name value)
      | none => parseVarsGo fuel rest acc

/-- `parseVariables` from src/index.js: extract every `--name: value;`
declaration into a table; later occurrences of a name overwrite earlier ones. -/
def parseVariables (content : String) : Table :=
  parseVarsGo content.data.length content.data []

example :
    parseVariables "a\n--x: 1px;\n--y:  var(--b) ;\n--x: 2px;\n" =
      [("x", "2px"), ("y", "var(--b)")] := by decide


/-! ### JS numbers

An exact (unnormalized) rational pair type stands in for JS binary64 numbers:
the values flowing through this tool are parsed decimal literals und their
four-function combinations, for which exact rational arithmetic agrees with
binary64 on every digit the tool renders.  `Option JQ` adds `NaN` as `none`
(also used for the non-finite results of a zero divisor, which no observed
path produces).  The denominator is kept positive by construction. -/

/-- An exact rational: `num / den`, `den` positive by construction. -/
structure JQ where
  num : Int
  den : Nat
  deriving DecidableEq

/-- Embed an integer. -/
def JQ.ofInt (n : Int) : JQ := ⟨n, 1⟩

/-- Value equality of unnormalized rationals (cross multiplication). -/
def qEqB (a b : JQ) : Bool := a.num * (b.den : Int) == b.num * (a.den : Int)

/-- Value order of unnormalized rationals (denominators positive). -/
def qLtB (a b : JQ) : Bool := a.num * (b.den : Int) < b.num * (a.den : Int)

def qAdd (a b : JQ) : JQ := ⟨a.num * b.den + b.num * a.den, a.den * b.den⟩

def qSub (a b : JQ) : JQ := ⟨a.num * b.den - b.num * a.den, a.den * b.den⟩

def qMul (a b : JQ) : JQ := ⟨a.num * b.num, a.den * b.den⟩

def qNeg (a : JQ) : JQ := ⟨-a.num, a.den⟩

/-- Division, keeping the denominator positive (caller excludes a zero `b`). -/
def qDiv (a b : JQ) : JQ :=
  if b.num < 0 then ⟨-(a.num * b.den), a.den * b.num.natAbs⟩
  else ⟨a.num * b.den, a.den * b.num.natAbs⟩

/-- Floor of an exact rational. -/
def qFloor (a : JQ) : Int := Int.fdiv a.num a.den

def qIsZero (a : JQ) : Bool := a.num == 0

def qIsNeg (a : JQ) : Bool := a.num < 0

abbrev JNum := Option JQ

def jsAdd : JNum → JNum → JNum
  | some a, some b => some (qAdd a b)
  | _, _ => none

def jsSub : JNum → JNum → JNum
  | some a, some b => some (qSub a b)
  | _, _ => none

def jsMul : JNum → JNum → JNum
  | some a, some b => some (qMul a b)
  | _, _ => none

def jsDiv : JNum → JNum → JNum
  | some a, some b => if qIsZero b then none else some (qDiv a b)
  | _, _ => none

def jsNeg : JNum → JNum
  | some a => some (qNeg a)
  | none => none

/-- Truthiness of a JS number: `0`, `NaN` (and absent/`null`) are falsy. -/
def jsTruthyN : JNum → Bool
  | some q => !qIsZero q
  | none => false

/-- Value equality of modelled JS numbers, as observed through the dedup key
string `${min}-${max}` (two `NaN`/`null` markers collide, as noted above). -/
def jnEqB : JNum → JNum → Bool
  | some a, some b => qEqB a b
  | none, none => true
  | _, _ => false

/-- Digits of a decimal digit run, as a natural number. -/
def digitsToNat (ds : List Char) : Nat :=
  ds.foldl (fun n c => n * 10 + (c.toNat - '0'.toNat)) 0

/-- Parse a run drawn from `[\d.]+` the way JS `parseFloat` does: optional
integer digits, optional dot, optional fraction digits; `NaN` when no digit is
found before the parse stops. -/
def parseDigitRun (ds : List Char) : JNum :=
  let intPart := ds.takeWhile (fun c => c.isDigit)
  let rest := ds.drop intPart.length
  match rest with
  | '.' :: rest2 =>
    let fracPart := rest2.takeWhile (fun c => c.isDigit)
    if intPart.isEmpty && fracPart.isEmpty then none
    else some ⟨digitsToNat intPart * 10 ^ fracPart.length + digitsToNat fracPart,
      10 ^ fracPart.length⟩
  | _ =>
    if intPart.isEmpty then none
    else some ⟨digitsToNat intPart, 1⟩

/-- JS `parseFloat` restricted to the shapes this tool feeds it: leading
whitespace skipped, optional sign, then a decimal literal (exponents are not
modelled; the tool's inputs are quoted pixel numbers and `[\d.]+` captures). -/
def parseFloatQ (s : String) : JNum :=
  let cs := s.data.dropWhile isWsChar
  match cs with
  | '-' :: rest => (parseDigitRun rest).map qNeg
  | '+' :: rest => parseDigitRun rest
  | _ => parseDigitRun cs

/-- JS `s.replace` dropping every double quote (regex `"` with flag g). -/
def stripQuotes (s : String) : String :=
  String.mk (s.data.filter (fun c => c ≠ '"'))

example : parseFloatQ (stripQuotes "\"320\"") = some ⟨320, 1⟩ := by decide
example : parseFloatQ "abc" = none := by decide
example : qEqB ⟨1125, 1000⟩ ⟨9, 8⟩ = true := by decide

/-! ### Rendering JS numbers back to text

The numbers this tool renders are parsed decimal literals, whose nearest
binary64 value prints (shortest round-trip) exactly as the literal with
trailing fractional zeros removed; on exact rationals this is the
minimal-length exact decimal expansion. -/

/-- Decimal digit string of a natural number. -/
def natDigits (n : Nat) : String := String.mk (Nat.toDigits 10 n)

/-- Smallest `i ≤ i₀ + fuel` with `num · 10^i` divisible by `den`. -/
def decExpSearch (num : Int) (den : Nat) : Nat → Nat → Nat
  | 0, i => i
  | fuel + 1, i => if num * 10 ^ i % (den : Int) == 0 then i else decExpSearch num den fuel (i + 1)

/-- Place a decimal point `k` digits from the right of a digit string,
zero-padding so an integer digit remains. -/
def placePoint (ds : String) (k : Nat) : String :=
  if k = 0 then ds
  else
    let padded := if ds.data.length < k + 1 then
      String.mk (List.replicate (k + 1 - ds.data.length) '0') ++ ds else ds
    String.mk (padded.data.take (padded.data.length - k)) ++ "." ++
      String.mk (padded.data.drop (padded.data.length - k))

/-- Render a nonnegative exact rational with ten-smooth denominator, the way
JS prints the corresponding double. -/
def renderPosQ (q : JQ) : String :=
  let k := decExpSearch q.num q.den 40 0
  let n := (Int.fdiv (q.num * 10 ^ k) q.den).toNat
  placePoint (natDigits n) k

/-- JS template rendering of a number value, on the exact rationals this tool
produces.  `none` renders as `NaN`. -/
def renderNum : JNum → String
  | some q => if qIsNeg q then "-" ++ renderPosQ (qNeg q) else renderPosQ q
  | none => "NaN"

example : renderNum (some ⟨1125, 1000⟩) = "1.125" := by decide
example : renderNum (some ⟨0, 1⟩) = "0" := by decide
example : renderNum (some ⟨1250, 1000⟩) = "1.25" := by decide
example : renderNum (some ⟨320, 1⟩) = "320" := by decide

/-! ### `toFixed(4)` (used by `generateClamp`)

Per the ECMAScript algorithm: for negative x the sign is emitted and x negated
first; then the integer `n` nearest to `x·10⁴` is chosen, ties picking the
larger `n`. -/

/-- `x.toFixed(4)` for a nonnegative exact rational. -/
def toFixed4Pos (q : JQ) : String :=
  let n := (qFloor (qAdd (qMul q (JQ.ofInt 10000)) ⟨1, 2⟩)).toNat
  placePoint (natDigits n) 4

/-- JS `x.toFixed(4)` on the modelled numbers (`NaN` renders as itself). -/
def toFixed4 : JNum → String
  | some q => if qIsNeg q then "-" ++ toFixed4Pos (qNeg q) else toFixed4Pos q
  | none => "NaN"

example : toFixed4 (some ⟨13, 12⟩) = "1.0833" := by decide
example : toFixed4 (some ⟨5, 24⟩) = "0.2083" := by decide
example : toFixed4 none = "NaN" := by decide

/-! ### `processFontSizes` (src/index.js lines 221–309)

The source reads the two viewport globals (throwing if either is absent),
scans the raw CSS line by line for `--font-size-min-step-N-rem` declarations,
pairs each with a same-N max declaration within the next 4 lines, removes
duplicate `(min, max)` pairs, sorts ascending by `avgValue` (which is always
the min value), re-indexes around the pair with `originalStep === 0`, and
emits `font-size-step-N` entries. -/

/-- One font-size step pair: `{ originalStep, min, max, avgValue }` from
src/index.js lines 246–251 (`avgValue` is always set to the min value). -/
structure StepData where
  originalStep : Nat
  min : JNum
  max : JNum
  avgValue : JNum
  deriving DecidableEq

/-- Match `<pre>(\d+)-rem:\s*([\d.]+)rem;` at the head of a character list.
Both captures are greedy runs over disjoint follow sets, so maximal-run
matching is exact. -/
def matchStepAt (pre : List Char) (cs : List Char) : Option (Nat × JNum) :=
  if startsWithL pre cs then
    let r1 := cs.drop pre.length
    let digits := r1.takeWhile Char.isDigit
    if digits.isEmpty then none
    else
      let r2 := r1.drop digits.length
      if startsWithL "-rem:".data r2 then
        let r3 := (r2.drop 5).dropWhile isWsChar
        let run := r3.takeWhile (fun c => c.isDigit || c == '.')
        if run.isEmpty then none
        else if startsWithL "rem;".data (r3.drop run.length) then
          some (digitsToNat digits, parseDigitRun run)
        else none
      else none
  else none

/-- First match of the step regex anywhere in a line (JS `line.match(…)`). -/
def findStepMatch (pre : List Char) : Nat → List Char → Option (Nat × JNum)
  | 0, _ => none
  | fuel + 1, cs =>
    match cs with
    | [] => none
    | c :: rest =>
      match matchStepAt pre (c :: rest) with
      | some r => some r
      | none => findStepMatch pre fuel rest

/-- Search the 4-line window after a min declaration for the max declaration
with the same step number (src/index.js lines 237–244). -/
def findMaxInWindow (step : Nat) : List (List Char) → JNum
  | [] => none
  | l :: rest =>
    match findStepMatch "--font-size-max-step-".data l.length l with
    | some (s, v) => if s == step then v else findMaxInWindow step rest
    | none => findMaxInWindow step rest

/-- Collect all step records from the CSS lines (src/index.js lines 229–253). -/
def collectSteps : List (List Char) → List StepData
  | [] => []
  | l :: rest =>
    match findStepMatch "--font-size-min-step-".data l.length l with
    | some (step, minQ) =>
      { originalStep := step, min := minQ,
        max := findMaxInWindow step (rest.take 4), avgValue := minQ } :: collectSteps rest
    | none => collectSteps rest

/-- Number-value equality of a dedup key pair, as the JS string key
`${min}-${max}` observes it. -/
def jnPairEqB (a b : JNum × JNum) : Bool :=
  jnEqB a.1 b.1 && jnEqB a.2 b.2

/-- Has this `(min, max)` key been seen already? -/
def keySeen (k : JNum × JNum) : List (JNum × JNum) → Bool
  | [] => false
  | p :: ps => jnPairEqB p k || keySeen k ps

/-- Remove exact `(min, max)` duplicates, keeping first occurrences
(src/index.js lines 256–265). -/
def dedupSteps : List StepData → List (JNum × JNum) → List StepData
  | [], _ => []
  | s :: rest, seen =>
    if keySeen (s.min, s.max) seen then dedupSteps rest seen
    else s :: dedupSteps rest ((s.min, s.max) :: seen)

/-- Comparator `(a, b) => a.avgValue - b.avgValue` (a `NaN` difference is
treated as 0, as engines do for a comparator returning `NaN`). -/
def stepCmp (a b : StepData) : Int :=
  match a.avgValue, b.avgValue with
  | some x, some y => if qLtB x y then -1 else if qLtB y x then 1 else 0
  | _, _ => 0

/-- Stable insertion of `x` into a comparator-sorted list: `x` goes before the
first element that must come after it, hence after all elements comparing
equal (the element inserted later stays later — stability). -/
def insertCmp {α : Type} (c : α → α → Int) (x : α) : List α → List α
  | [] => [x]
  | y :: ys => if c x y < 0 then x :: y :: ys else y :: insertCmp c x ys

/-- Stable comparator sort (JS `Array.prototype.sort` is stable and its result
is determined by the comparator for a consistent comparator). -/
def sortCmp {α : Type} (c : α → α → Int) (l : List α) : List α :=
  l.foldl (fun acc x => insertCmp c x acc) []

/-- Index of the first pair with `originalStep === 0`, or −1
(src/index.js lines 271–277). -/
def findStep0Go : Nat → List StepData → Int
  | _, [] => -1
  | i, s :: rest => if s.originalStep == 0 then (i : Int) else findStep0Go (i + 1) rest

def findStep0Index (steps : List StepData) : Int := findStep0Go 0 steps

/-- The asymmetric re-indexing of src/index.js lines 282–295: positions before
the step-0 index count down to −1, the step-0 position becomes 0, and later
positions keep their original step number. -/
def outputStepNum (z : Int) (i : Nat) (d : StepData) : Int :=
  if (i : Int) < z then (i : Int) - z
  else if (i : Int) = z then 0
  else (d.originalStep : Int)

/-- JS rendering of an integer. -/
def renderInt (n : Int) : String :=
  if n < 0 then "-" ++ natDigits n.natAbs else natDigits n.toNat

/-- `generateClamp` from src/index.js lines 314–322. -/
def generateClamp (minWidthPx maxWidthPx minFontSize maxFontSize : JNum) : String :=
  let pixelsPerRem : JNum := some (JQ.ofInt 16)
  let minWidth := jsDiv minWidthPx pixelsPerRem
  let maxWidth := jsDiv maxWidthPx pixelsPerRem
  let slope := jsDiv (jsSub maxFontSize minFontSize) (jsSub maxWidth minWidth)
  let yAxisIntersection := jsAdd (jsMul (jsNeg minWidth) slope) minFontSize
  "clamp(" ++ renderNum minFontSize ++ "rem, " ++ toFixed4 yAxisIntersection ++
    "rem + " ++ toFixed4 (jsMul slope (some (JQ.ofInt 100))) ++ "vw, " ++
    renderNum maxFontSize ++ "rem)"

/-- The value emitted for one step record (src/index.js lines 299–305):
`data.min && data.max` is JS number truthiness, so a 0 or `NaN`/absent bound
falls through. -/
def stepEntry (minWidth maxWidth : JNum) (d : StepData) : Option String :=
  if jsTruthyN d.min && jsTruthyN d.max then
    some (generateClamp minWidth maxWidth d.min d.max)
  else if jsTruthyN d.min then some (renderNum d.min ++ "rem")
  else if jsTruthyN d.max then some (renderNum d.max ++ "rem")
  else none

/-- Emission loop of src/index.js lines 282–306. -/
def emitSteps (minWidth maxWidth : JNum) (z : Int) : Nat → List StepData → Table → Table
  | _, [], acc => acc
  | i, d :: rest, acc =>
    let acc2 := match stepEntry minWidth maxWidth d with
      | some v => jsSetG acc ("font-size-step-" ++ renderInt (outputStepNum z i d)) v
      | none => acc
    emitSteps minWidth maxWidth z (i + 1) rest acc2

/-- `processFontSizes` from src/index.js lines 221–309.  Reading `.replace` on
an absent viewport global throws, modelled as `none`.  (`variables` is a
reserved word in Lean, hence the parameter name `vars`.) -/
def processFontSizes (vars : Table) (originalCSS : String) : Option Table := do
  let minRaw ← jsGetG vars "viewport-min-width"
  let maxRaw ← jsGetG vars "viewport-max-width"
  let minWidth := parseFloatQ (stripQuotes minRaw)
  let maxWidth := parseFloatQ (stripQuotes maxRaw)
  let sorted := sortCmp stepCmp (dedupSteps (collectSteps (splitOnNl originalCSS.data)) [])
  return emitSteps minWidth maxWidth (findStep0Index sorted) 0 sorted []

example :
    processFontSizes
      [("viewport-min-width", "\"320\""), ("viewport-max-width", "\"1280\"")]
      "--font-size-min-step-0-rem: 1.125rem;\n--font-size-max-step-0-rem: 1.25rem;\n" =
    some [("font-size-step-0", "clamp(1.125rem, 1.0833rem + 0.2083vw, 1.25rem)")] := by decide

/-! ### `processVariables` (src/index.js lines 81–188) -/

/-- The three-table result of the rule engine.  Primitive values are
`Option String` because the source can store a JS `undefined` property value
(looking up an absent raw base name), which the serializer later renders as
the text `undefined`. -/
structure ProcessedResult where
  primitives : List (String × Option String)
  lightMode : Table
  darkMode : Table
  deriving DecidableEq

/-- Does the name carry a mode suffix? -/
def isModeName (n : String) : Bool :=
  jsEndsWith n "-light-mode" || jsEndsWith n "-dark-mode"

/-- The category-exclusion prefixes of src/index.js lines 109–115. -/
def isExcluded (n : String) : Bool :=
  jsStartsWith n "font-size-mid-" || jsStartsWith n "font-weight-" ||
    jsStartsWith n "type-" || jsStartsWith n "viewport-"

/-- Mode-separation loop (src/index.js lines 89–99). -/
def modePassGo : List (String × String) → Table → Table → Table × Table
  | [], lm, dm => (lm, dm)
  | (n, v) :: rest, lm, dm =>
    if jsEndsWith n "-light-mode" then
      modePassGo rest
        (jsSetG lm (simplifyName (stripSuffixS n "-light-mode"))
          (simplifyVariableReferences v)) dm
    else if jsEndsWith n "-dark-mode" then
      modePassGo rest lm
        (jsSetG dm (simplifyName (stripSuffixS n "-dark-mode"))
          (simplifyVariableReferences v))
    else modePassGo rest lm dm

def modePass (vars : Table) : Table × Table := modePassGo vars [] []

/-- `-rem`-suffix loop (src/index.js lines 102–154), returning the primitives
built so far and the `processed` set. -/
def remPassGo (vars : Table) :
    List (String × String) → List (String × Option String) → List String →
    List (String × Option String) × List String
  | [], prims, processed => (prims, processed)
  | (n, v) :: rest, prims, processed =>
    if isModeName n then remPassGo vars rest prims processed
    else if isExcluded n then remPassGo vars rest prims processed
    else if jsEndsWith n "-rem" then
      let base := stripSuffixS n "-rem"
      if jsStartsWith base "font-size-" || base == "radii-full" || base == "spacing-px" then
        if base == "radii-full" then
          remPassGo vars rest (jsSetG prims "radii-full" (jsGetG vars "radii-full"))
            ("radii-full" :: processed)
        else if base == "spacing-px" then
          remPassGo vars rest (jsSetG prims "spacing-px" (jsGetG vars "spacing-px"))
            ("spacing-px" :: processed)
        else remPassGo vars rest prims processed
      else
        let cleanValue := if v == "0rem" then "0" else v
        let cleanName := simplifyName base
        let prims2 :=
          if jsStartsWith base "typography-font-" then
            jsSetG prims cleanName (jsGetG vars base)
          else jsSetG prims cleanName (some cleanValue)
        remPassGo vars rest prims2 (n :: base :: processed)
    else remPassGo vars rest prims processed

def remPass (vars : Table) : List (String × Option String) × List String :=
  remPassGo vars vars [] []

/-- Non-rem fallback loop (src/index.js lines 157–181).  The `font-family-`
special case reads capture 1 of `cleanValue.match` of the `var(--X)` regex;
when the value has no closing parenthesis that match is `null` and the
subscript throws, modelled as `none`.  (Under the `startsWith
"var(--typography-font-"` guard, a head match of the reference pattern exists
iff a match exists anywhere.) -/
def fallbackGo (vars : Table) (processed : List String) :
    List (String × String) → List (String × Option String) →
    Option (List (String × Option String))
  | [], prims => some prims
  | (n, v) :: rest, prims =>
    if processed.contains n || jsEndsWith n "-rem" then fallbackGo vars processed rest prims
    else if isModeName n then fallbackGo vars processed rest prims
    else if isExcluded n then fallbackGo vars processed rest prims
    else if jsTruthyS (jsGetG vars (n ++ "-rem")) then fallbackGo vars processed rest prims
    else
      let cleanValue := if v == "0px" then "0" else v
      if jsStartsWith n "font-family-" && jsStartsWith cleanValue "var(--typography-font-" then
        match matchVarRef cleanValue.data with
        | some (cap, _) =>
          let resolved := match jsGetG vars (String.mk cap) with
            | some w => if w == "" then cleanValue else w
            | none => cleanValue
          fallbackGo vars processed rest (jsSetG prims (simplifyName n) (some resolved))
        | none => none
      else fallbackGo vars processed rest (jsSetG prims (simplifyName n) (some cleanValue))

def fallbackPass (vars : Table) (processed : List String)
    (prims : List (String × Option String)) : Option (List (String × Option String)) :=
  fallbackGo vars processed vars prims

/-- `processVariables` from src/index.js lines 81–188: mode separation, the
`-rem` pass, the non-rem fallback, then `Object.assign` of the synthesized
font sizes onto the primitives. -/
def processVariables (vars : Table) (originalCSS : String) : Option ProcessedResult := do
  let (lm, dm) := modePass vars
  let (prims1, processed) := remPass vars
  let prims2 ← fallbackPass vars processed prims1
  let fontSizes ← processFontSizes vars originalCSS
  let prims3 := fontSizes.foldl (fun p kv => jsSetG p kv.1 (some kv.2)) prims2
  return ⟨prims3, lm, dm⟩

example :
    (modePass [("surface-surface-background-light-mode", "var(--color-default-50)"),
               ("surface-surface-background-dark-mode", "var(--color-default-950)")]) =
    ([("surface-background", "var(--color-default-50)")],
     [("surface-background", "var(--color-default-950)")]) := by decide

example :
    remPass [("spacing-4-rem", "1rem"), ("spacing-4", "16px")] =
    ([("spacing-4", some "1rem")], ["spacing-4-rem", "spacing-4"]) := by decide

example :
    fallbackPass [("container-max", "90rem")] [] [] =
    some [("container-max", some "90rem")] := by decide

/-! ### Comparators (src/index.js lines 528–587 and 607–772)

`localeCompare` and the comparator-free `Array.sort()` are both modelled as
code-unit lexicographic comparison, which coincides with them on the
ascii-lowercase hyphenated names this tool compares. -/

def strLtL : List Char → List Char → Bool
  | [], [] => false
  | [], _ :: _ => true
  | _ :: _, [] => false
  | a :: as, b :: bs =>
    if a.toNat < b.toNat then true
    else if b.toNat < a.toNat then false
    else strLtL as bs

def strLtB (a b : String) : Bool := strLtL a.data b.data

/-- Three-way code-unit string comparison. -/
def strCmp (a b : String) : Int := if strLtB a b then -1 else if strLtB b a then 1 else 0

/-- `Array.prototype.indexOf` over a list of strings (−1 when absent). -/
def listIdxGo : Nat → List String → String → Int
  | _, [], _ => -1
  | i, y :: ys, x => if y == x then (i : Int) else listIdxGo (i + 1) ys x

def listIdx (l : List String) (x : String) : Int := listIdxGo 0 l x

def radiiOrder : List String := ["xs", "sm", "md", "lg", "xl", "2xl", "3xl", "4xl", "full"]

def borderOrder : List String := ["xs", "sm", "md", "lg", "xl"]

/-- Match `step-(-?\d+)` at the head of a character list. -/
def matchStepNumAt (cs : List Char) : Option Int :=
  if startsWithL "step-".data cs then
    match cs.drop 5 with
    | '-' :: r2 =>
      let ds := r2.takeWhile Char.isDigit
      if ds.isEmpty then none else some (-(digitsToNat ds : Int))
    | r =>
      let ds := r.takeWhile Char.isDigit
      if ds.isEmpty then none else some ((digitsToNat ds : Int))
  else none

/-- First match of `step-(-?\d+)` anywhere in the string. -/
def findStepNum : Nat → List Char → Option Int
  | 0, _ => none
  | _ + 1, [] => none
  | fuel + 1, c :: rest =>
    match matchStepNumAt (c :: rest) with
    | some n => some n
    | none => findStepNum fuel rest

/-- The trailing-digit capture of the color-scale pattern `-(\d+)$`. -/
def trailingNumCapture (s : String) : Option (List Char) :=
  let rev := s.data.reverse
  let dsRev := rev.takeWhile Char.isDigit
  if dsRev.isEmpty then none
  else match rev.drop dsRev.length with
    | '-' :: _ => some dsRev.reverse
    | _ => none

/-- The numeric value of the spacing/size pattern `(\d+)(_\d+)?$` after the
underscore-to-dot replacement and `parseFloat`. -/
def spacingNumCapture (s : String) : Option JQ :=
  let rev := s.data.reverse
  let t1 := rev.takeWhile Char.isDigit
  if t1.isEmpty then none
  else match rev.drop t1.length with
    | '_' :: rest2 =>
      let t2 := rest2.takeWhile Char.isDigit
      if t2.isEmpty then some ⟨(digitsToNat t1.reverse : Int), 1⟩
      else some ⟨(digitsToNat t2.reverse * 10 ^ t1.length + digitsToNat t1.reverse : Int),
        10 ^ t1.length⟩
    | _ => some ⟨(digitsToNat t1.reverse : Int), 1⟩

/-- Sign comparison of two exact rationals, as an `Int` comparator value. -/
def qCmpSign (x y : JQ) : Int := if qLtB x y then -1 else if qLtB y x then 1 else 0

/-- `sortVariables` from src/index.js lines 528–587.  (In the font-size branch
the source indexes capture 1 of a match that exists for every name produced by
the pipeline; a missing match would throw — modelled as step number 0.) -/
def sortVariables (a b : String) (grp : String) : Int :=
  if grp == "radii" &&
      listIdx radiiOrder (jsReplaceFirst a "radii-" "") ≠ -1 &&
      listIdx radiiOrder (jsReplaceFirst b "radii-" "") ≠ -1 then
    listIdx radiiOrder (jsReplaceFirst a "radii-" "") -
      listIdx radiiOrder (jsReplaceFirst b "radii-" "")
  else if grp == "border" &&
      listIdx borderOrder (jsReplaceFirst a "border-" "") ≠ -1 &&
      listIdx borderOrder (jsReplaceFirst b "border-" "") ≠ -1 then
    listIdx borderOrder (jsReplaceFirst a "border-" "") -
      listIdx borderOrder (jsReplaceFirst b "border-" "")
  else if grp == "font-size" && jsIncludes a "step-" && jsIncludes b "step-" then
    (findStepNum b.data.length b.data).getD 0 - (findStepNum a.data.length a.data).getD 0
  else if (trailingNumCapture a).isSome && (trailingNumCapture b).isSome then
    ((trailingNumCapture a).map digitsToNat).getD 0 -
      ((trailingNumCapture b).map digitsToNat).getD 0
  else if grp == "spacing" || grp == "size" then
    if a == "spacing-px" then -1
    else if b == "spacing-px" then 1
    else match spacingNumCapture a, spacingNumCapture b with
      | some x, some y => qCmpSign x y
      | _, _ => strCmp a b
  else strCmp a b

/-- Known-suffix rank lists of `sortModeVariables` (src/index.js lines 610–717). -/
def categoryOrderOf (cat : String) : List String :=
  if cat == "surface" then
    ["background", "background-0", "primary-default", "primary-hover", "primary-active",
     "secondary-default", "secondary-hover", "secondary-active",
     "tertiary-default", "tertiary-hover", "tertiary-active",
     "quaternary", "quinary", "senary", "septenary", "octonary", "accent",
     "highlight-default", "highlight-active", "highlight-hover",
     "focus", "error", "warning", "success", "info"]
  else if cat == "text" then
    ["foreground-default", "foreground-hover", "foreground-active",
     "primary-default", "primary-hover", "primary-active",
     "secondary-default", "secondary-hover", "secondary-active",
     "tertiary-default", "tertiary-hover", "tertiary-active",
     "quaternary", "quinary", "senary", "septenary", "octonary", "inverted", "accent",
     "highlight-default", "highlight-hover", "highlight-active",
     "focus", "error", "warning", "success", "info"]
  else if cat == "icon" then
    ["foreground", "foreground-hover", "foreground-active",
     "primary-default", "primary-hover", "primary-active",
     "secondary-default", "secondary-hover", "secondary-active",
     "tertiary", "quaternary", "quinary", "senary", "septenary", "octonary", "inverted",
     "highlight-default", "highlight-hover", "highlight-active"]
  else
    ["primary-default", "primary-hover", "primary-active",
     "secondary-default", "secondary-hover", "secondary-active",
     "tertiary-default", "tertiary-hover", "tertiary-active",
     "quaternary", "quinary", "senary", "septenary",
     "octonary-default", "octonary-hover", "octonary-active",
     "disabled", "inverted", "focus", "error", "warning", "success", "info"]

/-- The lazy base/state split `^(.+?)(?:-(default|hover|active))?$`: strip one
final state suffix when a nonempty base remains, else the whole suffix with
implicit state `default`; `null` (empty input) is `none`. -/
def splitState (s : String) : Option (String × String) :=
  if s.data.isEmpty then none
  else if jsEndsWith s "-default" && s.data.length > 8 then some (dropEndS s 8, "default")
  else if jsEndsWith s "-hover" && s.data.length > 6 then some (dropEndS s 6, "hover")
  else if jsEndsWith s "-active" && s.data.length > 7 then some (dropEndS s 7, "active")
  else some (s, "default")

/-- `(stateOrder[state] || 3)` from src/index.js line 763: the rank 0 of
`default` is falsy in JS, so `default` ranks 3 (after hover and active). -/
def stateRank (st : String) : Int :=
  if st == "hover" then 1 else if st == "active" then 2 else 3

/-- `sortModeVariables` from src/index.js lines 607–772.  The category is
determined from `a` alone and its suffix stripped from both names by a
first-occurrence replace. -/
def sortModeVariables (a b : String) : Int :=
  match ["surface", "text", "icon", "outline"].find? (fun cat => jsStartsWith a cat) with
  | none => strCmp a b
  | some cat =>
    let aSuffix := jsReplaceFirst a (cat ++ "-") ""
    let bSuffix := jsReplaceFirst b (cat ++ "-") ""
    let aIdx := listIdx (categoryOrderOf cat) aSuffix
    let bIdx := listIdx (categoryOrderOf cat) bSuffix
    if aIdx ≠ -1 && bIdx ≠ -1 then aIdx - bIdx
    else if aIdx ≠ -1 then -1
    else if bIdx ≠ -1 then 1
    else match splitState aSuffix, splitState bSuffix with
      | some (aBase, aState), some (bBase, bState) =>
        if aBase == bBase then stateRank aState - stateRank bState
        else strCmp aBase bBase
      | _, _ => strCmp aSuffix bSuffix

/-! ### `generateOutput` (src/index.js lines 331–523) -/

def knownColorOrder : List String :=
  ["color-default", "color-gray", "color-primary", "color-secondary",
   "color-tertiary", "color-highlight", "color-accent"]

def otherGroupsOrder : List String :=
  ["container", "header", "font-family", "border", "radii", "spacing",
   "size", "font-size", "surface", "text", "icon", "outline"]

/-- The color-family capture `^color-([a-z]+)` of a name. -/
def colorFam (name : String) : Option String :=
  if jsStartsWith name "color-" then
    let run := (name.data.drop 6).takeWhile (fun c => 'a' ≤ c && c ≤ 'z')
    if run.isEmpty then none else some (String.mk run)
  else none

/-- Detected color families in first-occurrence order (a JS `Set` preserves
insertion order; src/index.js lines 375–383). -/
def detectColorGroups (prims : List (String × Option String)) : List String :=
  prims.foldl (fun acc p =>
    match colorFam p.1 with
    | some fam =>
      if acc.contains ("color-" ++ fam) then acc else acc ++ ["color-" ++ fam]
    | none => acc) []

/-- Detected families not in the known list, sorted by the comparator-free
`Array.sort()` (code-unit order); src/index.js lines 386–388. -/
def newColorGroups (prims : List (String × Option String)) : List String :=
  sortCmp strCmp ((detectColorGroups prims).filter (fun g => !knownColorOrder.contains g))

/-- The keys present in the `groups` object (known + other + new). -/
def groupKeys (prims : List (String × Option String)) : List String :=
  knownColorOrder ++ otherGroupsOrder ++ newColorGroups prims

/-- Which group a primitive name lands in (src/index.js lines 393–422): the
color-family attempt first, then the first other-group name that prefixes the
variable name; `none` is the warn-and-drop case. -/
def assignedGroup (gkeys : List String) (name : String) : Option String :=
  let colorTry := match colorFam name with
    | some fam =>
      if gkeys.contains ("color-" ++ fam) then some ("color-" ++ fam) else none
    | none => none
  match colorTry with
  | some p => some p
  | none => otherGroupsOrder.find? (fun pre => jsStartsWith name pre)

/-- Final group emission order (src/index.js line 425). -/
def finalGroupOrder (prims : List (String × Option String)) : List String :=
  knownColorOrder ++ newColorGroups prims ++ otherGroupsOrder

/-- The members pushed into one group, in primitives iteration order. -/
def membersOf (prims : List (String × Option String)) (gkeys : List String)
    (g : String) : List (String × Option String) :=
  prims.filter (fun p => assignedGroup gkeys p.1 == some g)

/-- JS template rendering of a possibly-`undefined` property value. -/
def renderPrimValue : Option String → String
  | some v => v
  | none => "undefined"

/-- One group's declaration lines at 4-space indent. -/
def primLines (members : List (String × Option String)) : String :=
  String.join (members.map (fun p => "    --" ++ p.1 ++ ": " ++ renderPrimValue p.2 ++ ";\n"))

/-- The primitive groups section (src/index.js lines 428–437): each non-empty
group sorted by `sortVariables`, then its lines, then a blank line. -/
def emitGroups (prims : List (String × Option String)) : String :=
  let gkeys := groupKeys prims
  (finalGroupOrder prims).foldl (fun out g =>
    let members := membersOf prims gkeys g
    if members.isEmpty then out
    else out ++
      primLines (sortCmp (fun x y => sortVariables x.1 y.1 g) members) ++ "\n") ""

/-- The four-bucket split of mode variables (prefix match, first of
surface/text/icon/outline; unmatched names are dropped). -/
def modeMembers (t : Table) (pre : String) : Table :=
  t.filter (fun p =>
    (["surface", "text", "icon", "outline"].find? (fun q => jsStartsWith p.1 q)) == some pre)

/-- Mode-variable emission (src/index.js lines 440–472 and 481–514): the four
buckets in fixed order, each sorted by `sortModeVariables`, blank line between
non-empty buckets, at the given indent. -/
def emitModeBlocks (t : Table) (indent : String) : String :=
  (["surface", "text", "icon", "outline"].foldl (fun (acc : String × Bool) pre =>
    let members := modeMembers t pre
    if members.isEmpty then acc
    else
      let sortedM := sortCmp (fun x y => sortModeVariables x.1 y.1) members
      ((acc.1 ++ (if acc.2 then "" else "\n") ++
        String.join (sortedM.map (fun p => indent ++ "--" ++ p.1 ++ ": " ++ p.2 ++ ";\n"))),
       false)) ("", true)).1

/-- `generateOutput` from src/index.js lines 331–523. -/
def generateOutput (processed : ProcessedResult) : String :=
  let out1 := "@layer globals \x7b\n" ++ "  :root \x7b\n" ++ emitGroups processed.primitives
  let out2 := if processed.lightMode.isEmpty then out1
    else out1 ++ emitModeBlocks processed.lightMode "    "
  let out3 := out2 ++ "  \x7d\n"
  let out4 := if processed.darkMode.isEmpty then out3
    else out3 ++ "\n  @media (prefers-color-scheme: dark) \x7b\n" ++ "    :root \x7b\n" ++
      emitModeBlocks processed.darkMode "      " ++ "\n    \x7d\n" ++ "  \x7d\n"
  out4 ++ "\x7d\n"

/-- The core contract of src/index.js `transformCSS` (lines 38–59) without the
file I/O collaborators: full input text to full output text, `none` when the
pipeline throws. -/
def transformCSS (originalCSS : String) : Option String := do
  let vars := parseVariables originalCSS
  let processed ← processVariables vars originalCSS
  return generateOutput processed

/-! ### Basic lemmas about the JS object model -/

theorem find_map_upd {α : Type} (k : String) (v : α) :
    ∀ (t : List (String × α)), t.any (fun p => p.1 == k) = true →
    ((t.map (fun p => if p.1 == k then (k, v) else p)).find? (fun p => p.1 == k)) = some (k, v)
  | [], h => by simp at h
  | q :: qs, h => by
    rw [List.map_cons]
    by_cases hq : (q.1 == k) = true
    · rw [if_pos hq]
      simp only [List.find?_cons, beq_self_eq_true]
    · have hq' : (q.1 == k) = false := by rwa [Bool.not_eq_true] at hq
      rw [if_neg hq]
      simp only [List.find?_cons, hq']
      rw [List.any_cons, Bool.or_eq_true] at h
      rcases h with h | h
      · exact absurd h hq
      · exact find_map_upd k v qs h

theorem find_append_last {α : Type} (k : String) (v : α) :
    ∀ (t : List (String × α)), t.any (fun p => p.1 == k) = false →
    ((t ++ [(k, v)]).find? (fun p => p.1 == k)) = some (k, v)
  | [], _ => by
    rw [List.nil_append]
    simp only [List.find?_cons, beq_self_eq_true]
  | q :: qs, h => by
    rw [List.any_cons, Bool.or_eq_false_iff] at h
    rw [List.cons_append]
    simp only [List.find?_cons, h.1]
    exact find_append_last k v qs h.2

theorem jsGetG_set_self {α : Type} (t : List (String × α)) (k : String) (v : α) :
    jsGetG (jsSetG t k v) k = some v := by
  unfold jsGetG jsSetG
  by_cases h : t.any (fun p => p.1 == k)
  · rw [if_pos h, find_map_upd k v t h]
    rfl
  · have h' : t.any (fun p => p.1 == k) = false := by rwa [Bool.not_eq_true] at h
    rw [if_neg h, find_append_last k v t h']
    rfl

theorem find_map_upd_other {α : Type} (k k' : String) (v : α) (hne : k' ≠ k) :
    ∀ (t : List (String × α)),
    ((t.map (fun p => if p.1 == k then (k, v) else p)).find? (fun p => p.1 == k')) =
      t.find? (fun p => p.1 == k')
  | [] => by simp
  | q :: qs => by
    rw [List.map_cons]
    by_cases hq : (q.1 == k) = true
    · have hqe : q.1 = k := by simpa using hq
      have h3 : ((k : String) == k') = false := by
        simp only [beq_eq_false_iff_ne, ne_eq]
        exact fun hh => hne hh.symm
      have h4 : (q.1 == k') = false := by rw [hqe]; exact h3
      rw [if_pos hq]
      simp only [List.find?_cons, h3, h4]
      exact find_map_upd_other k k' v hne qs
    · rw [if_neg hq]
      by_cases hq2 : (q.1 == k') = true
      · simp only [List.find?_cons, hq2]
      · have hq2' : (q.1 == k') = false := by rwa [Bool.not_eq_true] at hq2
        simp only [List.find?_cons, hq2']
        exact find_map_upd_other k k' v hne qs

theorem find_append_last_other {α : Type} (k k' : String) (v : α) (hne : k' ≠ k) :
    ∀ (t : List (String × α)),
    ((t ++ [(k, v)]).find? (fun p => p.1 == k')) = t.find? (fun p => p.1 == k')
  | [] => by
    have h3 : ((k : String) == k') = false := by
      simp only [beq_eq_false_iff_ne, ne_eq]
      exact fun hh => hne hh.symm
    rw [List.nil_append]
    simp only [List.find?_cons, h3]
  | q :: qs => by
    rw [List.cons_append]
    by_cases hq2 : (q.1 == k') = true
    · simp only [List.find?_cons, hq2]
    · have hq2' : (q.1 == k') = false := by rwa [Bool.not_eq_true] at hq2
      simp only [List.find?_cons, hq2']
      exact find_append_last_other k k' v hne qs

theorem jsGetG_set_other {α : Type} (t : List (String × α)) (k k' : String) (v : α)
    (h : k' ≠ k) : jsGetG (jsSetG t k v) k' = jsGetG t k' := by
  unfold jsGetG jsSetG
  by_cases ha : t.any (fun p => p.1 == k)
  · rw [if_pos ha, find_map_upd_other k k' v h t]
  · rw [if_neg ha, find_append_last_other k k' v h t]

/-- Membership in the key list after a write. -/
theorem keysOf_set {α : Type} (t : List (String × α)) (k k' : String) (v : α)
    (h : k' ∈ keysOf (jsSetG t k v)) : k' ∈ keysOf t ∨ k' = k := by
  unfold keysOf jsSetG at *
  by_cases ha : t.any (fun p => p.1 == k)
  · rw [if_pos ha] at h
    simp only [List.map_map, List.mem_map] at h
    obtain ⟨p, hp, hpe⟩ := h
    by_cases hk : (p.1 == k) = true
    · right
      rw [Function.comp_apply, if_pos hk] at hpe
      exact hpe ▸ rfl
    · left
      rw [Function.comp_apply, if_neg hk] at hpe
      exact List.mem_map.mpr ⟨p, hp, hpe⟩
  · rw [if_neg ha] at h
    rw [List.map_append, List.mem_append] at h
    rcases h with h | h
    · exact Or.inl h
    · simp only [List.map_cons, List.map_nil, List.mem_singleton] at h
      exact Or.inr h

/-! ### Prefix lemmas for `simplifyName` case analysis -/

theorem startsWithL_self_append (p t : List Char) : startsWithL p (p ++ t) = true := by
  induction p with
  | nil => rfl
  | cons c cs ih => simp [startsWithL, ih]

/-- If neither of two lists is a prefix of the other, prepending one blocks
any match of the other regardless of the tail. -/
theorem startsWithL_mismatch : ∀ (p q t : List Char),
    startsWithL p q = false → startsWithL q p = false →
    startsWithL p (q ++ t) = false
  | [], q, t, h1, _ => by simp [startsWithL] at h1
  | _ :: _, [], _, _, h2 => by simp [startsWithL] at h2
  | p :: ps, q :: qs, t, h1, h2 => by
    by_cases hc : (p == q) = true
    · have hpq : p = q := by simpa using hc
      have hc2 : (q == p) = true := by simp [hpq]
      simp only [startsWithL, hc, hc2, Bool.true_and] at h1 h2
      simp only [List.cons_append, startsWithL, hc, Bool.true_and]
      exact startsWithL_mismatch ps qs t h1 h2
    · have hc' : (p == q) = false := by simpa using hc
      simp [List.cons_append, startsWithL, hc']

/-- Unfired anchored replace. -/
theorem replaceAnchored_id (pat rep s : String) (h : jsStartsWith s pat = false) :
    replaceAnchored pat rep s = s := by
  simp [replaceAnchored, h]

/-- Fired anchored replace. -/
theorem replaceAnchored_fire (pat rep s : String) (h : jsStartsWith s pat = true) :
    replaceAnchored pat rep s = rep ++ String.mk (s.data.drop pat.data.length) := by
  simp [replaceAnchored, h]

/-- A string beginning with a literal replacement blocks a later pattern that
is prefix-incomparable with it. -/
theorem jsStartsWith_rep_block (rep x pat : String)
    (h1 : startsWithL pat.data rep.data = false)
    (h2 : startsWithL rep.data pat.data = false) :
    jsStartsWith (rep ++ x) pat = false := by
  unfold jsStartsWith
  rw [String.data_append]
  exact startsWithL_mismatch pat.data rep.data x.data h1 h2

/-- The one-rule reading of `simplifyName`: at most one of the seven chained
anchored replaces can fire, because no replacement output begins with a later
pattern. -/
def simplifyNameAlt (s : String) : String :=
  if jsStartsWith s "border-border-" then
    "border-" ++ String.mk (s.data.drop ("border-border-" : String).data.length)
  else if jsStartsWith s "size-size-" then
    "size-" ++ String.mk (s.data.drop ("size-size-" : String).data.length)
  else if jsStartsWith s "surface-surface-" then
    "surface-" ++ String.mk (s.data.drop ("surface-surface-" : String).data.length)
  else if jsStartsWith s "text-text-" then
    "text-" ++ String.mk (s.data.drop ("text-text-" : String).data.length)
  else if jsStartsWith s "icon-icon-" then
    "icon-" ++ String.mk (s.data.drop ("icon-icon-" : String).data.length)
  else if jsStartsWith s "outline-outline-" then
    "outline-" ++ String.mk (s.data.drop ("outline-outline-" : String).data.length)
  else if jsStartsWith s "typography-font-" then
    "font-family-" ++ String.mk (s.data.drop ("typography-font-" : String).data.length)
  else s

theorem simplifyName_eq_alt (s : String) : simplifyName s = simplifyNameAlt s := by
  unfold simplifyName simplifyNameAlt
  by_cases h1 : jsStartsWith s "border-border-"
  · rw [replaceAnchored_fire "border-border-" "border-" s h1]
    rw [replaceAnchored_id "size-size-" "size-" _
      (jsStartsWith_rep_block "border-" _ "size-size-" (by decide) (by decide))]
    rw [replaceAnchored_id "surface-surface-" "surface-" _
      (jsStartsWith_rep_block "border-" _ "surface-surface-" (by decide) (by decide))]
    rw [replaceAnchored_id "text-text-" "text-" _
      (jsStartsWith_rep_block "border-" _ "text-text-" (by decide) (by decide))]
    rw [replaceAnchored_id "icon-icon-" "icon-" _
      (jsStartsWith_rep_block "border-" _ "icon-icon-" (by decide) (by decide))]
    rw [replaceAnchored_id "outline-outline-" "outline-" _
      (jsStartsWith_rep_block "border-" _ "outline-outline-" (by decide) (by decide))]
    rw [replaceAnchored_id "typography-font-" "font-family-" _
      (jsStartsWith_rep_block "border-" _ "typography-font-" (by decide) (by decide))]
    rw [if_pos h1]
  · have h1' : jsStartsWith s "border-border-" = false := by simpa using h1
    rw [replaceAnchored_id "border-border-" "border-" s h1', if_neg h1]
    by_cases h2 : jsStartsWith s "size-size-"
    · rw [replaceAnchored_fire "size-size-" "size-" s h2]
      rw [replaceAnchored_id "surface-surface-" "surface-" _
        (jsStartsWith_rep_block "size-" _ "surface-surface-" (by decide) (by decide))]
      rw [replaceAnchored_id "text-text-" "text-" _
        (jsStartsWith_rep_block "size-" _ "text-text-" (by decide) (by decide))]
      rw [replaceAnchored_id "icon-icon-" "icon-" _
        (jsStartsWith_rep_block "size-" _ "icon-icon-" (by decide) (by decide))]
      rw [replaceAnchored_id "outline-outline-" "outline-" _
        (jsStartsWith_rep_block "size-" _ "outline-outline-" (by decide) (by decide))]
      rw [replaceAnchored_id "typography-font-" "font-family-" _
        (jsStartsWith_rep_block "size-" _ "typography-font-" (by decide) (by decide))]
      rw [if_pos h2]
    · have h2' : jsStartsWith s "size-size-" = false := by simpa using h2
      rw [replaceAnchored_id "size-size-" "size-" s h2', if_neg h2]
      by_cases h3 : jsStartsWith s "surface-surface-"
      · rw [replaceAnchored_fire "surface-surface-" "surface-" s h3]
        rw [replaceAnchored_id "text-text-" "text-" _
          (jsStartsWith_rep_block "surface-" _ "text-text-" (by decide) (by decide))]
        rw [replaceAnchored_id "icon-icon-" "icon-" _
          (jsStartsWith_rep_block "surface-" _ "icon-icon-" (by decide) (by decide))]
        rw [replaceAnchored_id "outline-outline-" "outline-" _
          (jsStartsWith_rep_block "surface-" _ "outline-outline-" (by decide) (by decide))]
        rw [replaceAnchored_id "typography-font-" "font-family-" _
          (jsStartsWith_rep_block "surface-" _ "typography-font-" (by decide) (by decide))]
        rw [if_pos h3]
      · have h3' : jsStartsWith s "surface-surface-" = false := by simpa using h3
        rw [replaceAnchored_id "surface-surface-" "surface-" s h3', if_neg h3]
        by_cases h4 : jsStartsWith s "text-text-"
        · rw [replaceAnchored_fire "text-text-" "text-" s h4]
          rw [replaceAnchored_id "icon-icon-" "icon-" _
            (jsStartsWith_rep_block "text-" _ "icon-icon-" (by decide) (by decide))]
          rw [replaceAnchored_id "outline-outline-" "outline-" _
            (jsStartsWith_rep_block "text-" _ "outline-outline-" (by decide) (by decide))]
          rw [replaceAnchored_id "typography-font-" "font-family-" _
            (jsStartsWith_rep_block "text-" _ "typography-font-" (by decide) (by decide))]
          rw [if_pos h4]
        · have h4' : jsStartsWith s "text-text-" = false := by simpa using h4
          rw [replaceAnchored_id "text-text-" "text-" s h4', if_neg h4]
          by_cases h5 : jsStartsWith s "icon-icon-"
          · rw [replaceAnchored_fire "icon-icon-" "icon-" s h5]
            rw [replaceAnchored_id "outline-outline-" "outline-" _
              (jsStartsWith_rep_block "icon-" _ "outline-outline-" (by decide) (by decide))]
            rw [replaceAnchored_id "typography-font-" "font-family-" _
              (jsStartsWith_rep_block "icon-" _ "typography-font-" (by decide) (by decide))]
            rw [if_pos h5]
          · have h5' : jsStartsWith s "icon-icon-" = false := by simpa using h5
            rw [replaceAnchored_id "icon-icon-" "icon-" s h5', if_neg h5]
            by_cases h6 : jsStartsWith s "outline-outline-"
            · rw [replaceAnchored_fire "outline-outline-" "outline-" s h6]
              rw [replaceAnchored_id "typography-font-" "font-family-" _
                (jsStartsWith_rep_block "outline-" _ "typography-font-" (by decide) (by decide))]
              rw [if_pos h6]
            · have h6' : jsStartsWith s "outline-outline-" = false := by simpa using h6
              rw [replaceAnchored_id "outline-outline-" "outline-" s h6', if_neg h6]
              by_cases h7 : jsStartsWith s "typography-font-"
              · rw [replaceAnchored_fire "typography-font-" "font-family-" s h7, if_pos h7]
              · have h7' : jsStartsWith s "typography-font-" = false := by simpa using h7
                rw [replaceAnchored_id "typography-font-" "font-family-" s h7', if_neg h7]

/-! ### Write predicates and stability lemmas for the rule-engine passes -/

/-- When `s` starts with `p`, it decomposes as `p` followed by the rest. -/
theorem startsWithL_decomp : ∀ (p s : List Char), startsWithL p s = true →
    s = p ++ s.drop p.length
  | [], s, _ => by simp
  | c :: cs, [], h => by simp [startsWithL] at h
  | c :: cs, d :: ds, h => by
    simp only [startsWithL, Bool.and_eq_true, beq_iff_eq] at h
    obtain ⟨h1, h2⟩ := h
    simp only [List.cons_append, List.length_cons, List.drop_succ_cons]
    rw [h1, ← startsWithL_decomp cs ds h2]

/-- String version of the decomposition. -/
theorem jsStartsWith_decomp (s p : String) (h : jsStartsWith s p = true) :
    s = p ++ String.mk (s.data.drop p.data.length) := by
  unfold jsStartsWith at h
  apply String.ext
  rw [String.data_append]
  exact startsWithL_decomp p.data s.data h

/-- A string that starts with an incomparable literal fails another
prefix test (string form over a decomposition). -/
theorem jsStartsWith_of_startsWith (s rep pat : String)
    (hs : jsStartsWith s rep = true)
    (h1 : startsWithL pat.data rep.data = false)
    (h2 : startsWithL rep.data pat.data = false) :
    jsStartsWith s pat = false := by
  rw [jsStartsWith_decomp s rep hs]
  exact jsStartsWith_rep_block rep _ pat h1 h2

/-- A fired anchored append never equals a string the replacement does not
prefix. -/
theorem append_ne_of_not_startsWith (rep x target : String)
    (h : startsWithL rep.data target.data = false) : rep ++ x ≠ target := by
  intro he
  have hd : target.data = rep.data ++ x.data := by
    rw [← he, String.data_append]
  rw [hd, startsWithL_self_append] at h
  exact absurd h (by simp)

/-- `simplifyName` can only produce a fixed name that no replacement output
prefixes by mapping that very name to itself. -/
theorem simplifyName_fixed (s target : String)
    (hb : startsWithL ("border-" : String).data target.data = false)
    (hsz : startsWithL ("size-" : String).data target.data = false)
    (hsf : startsWithL ("surface-" : String).data target.data = false)
    (ht : startsWithL ("text-" : String).data target.data = false)
    (hi : startsWithL ("icon-" : String).data target.data = false)
    (ho : startsWithL ("outline-" : String).data target.data = false)
    (hf : startsWithL ("font-family-" : String).data target.data = false)
    (h : simplifyName s = target) : s = target := by
  rw [simplifyName_eq_alt] at h
  unfold simplifyNameAlt at h
  split_ifs at h
  · exact absurd h (append_ne_of_not_startsWith _ _ _ hb)
  · exact absurd h (append_ne_of_not_startsWith _ _ _ hsz)
  · exact absurd h (append_ne_of_not_startsWith _ _ _ hsf)
  · exact absurd h (append_ne_of_not_startsWith _ _ _ ht)
  · exact absurd h (append_ne_of_not_startsWith _ _ _ hi)
  · exact absurd h (append_ne_of_not_startsWith _ _ _ ho)
  · exact absurd h (append_ne_of_not_startsWith _ _ _ hf)
  · exact h

/-- Names the `-rem` pass can write under key `k`: non-mode, non-excluded,
`-rem`-suffixed names that do not fall in the silently-dropped font-size
branch, whose simplified base is `k`. -/
def remWritesKey (n k : String) : Bool :=
  !isModeName n && !isExcluded n && jsEndsWith n "-rem" &&
    (stripSuffixS n "-rem" == "radii-full" || stripSuffixS n "-rem" == "spacing-px" ||
      !jsStartsWith (stripSuffixS n "-rem") "font-size-") &&
    (simplifyName (stripSuffixS n "-rem") == k)

/-- The value the `-rem` pass writes for entry `(n, v)`. -/
def remWriteVal (vars : Table) (n v : String) : Option String :=
  let base := stripSuffixS n "-rem"
  if base == "radii-full" || base == "spacing-px" then jsGetG vars base
  else if jsStartsWith base "typography-font-" then jsGetG vars base
  else some (if v == "0rem" then "0" else v)

theorem contains_cons_of (l : List String) (x b : String) (h : l.contains b = true) :
    (x :: l).contains b = true := by
  rw [List.contains_cons, h, Bool.or_true]

/-- Once `k` holds `xval` and every remaining writer of `k` writes `xval`, the
`-rem` pass keeps `k` at `xval`; the `processed` set only grows. -/
theorem remPassGo_stable (vars : Table) (k : String) (xval : Option String) (b : String) :
    ∀ (rest : List (String × String)) (prims : List (String × Option String))
      (processed : List String),
    (∀ m u, (m, u) ∈ rest → remWritesKey m k = true → remWriteVal vars m u = xval) →
    jsGetG prims k = some xval → processed.contains b = true →
    jsGetG (remPassGo vars rest prims processed).1 k = some xval ∧
    (remPassGo vars rest prims processed).2.contains b = true
  | [], prims, processed, _, hlook, hproc => by
    simp only [remPassGo]
    exact ⟨hlook, hproc⟩
  | (n, w) :: rest, prims, processed, hwriters, hlook, hproc => by
    have hrest : ∀ m u, (m, u) ∈ rest → remWritesKey m k = true → remWriteVal vars m u = xval :=
      fun m u hm hw => hwriters m u (List.mem_cons_of_mem _ hm) hw
    simp only [remPassGo]
    by_cases hmode : isModeName n = true
    · rw [if_pos hmode]
      exact remPassGo_stable vars k xval b rest prims processed hrest hlook hproc
    · rw [if_neg hmode]
      by_cases hexcl : isExcluded n = true
      · rw [if_pos hexcl]
        exact remPassGo_stable vars k xval b rest prims processed hrest hlook hproc
      · rw [if_neg hexcl]
        by_cases hrem : jsEndsWith n "-rem" = true
        · rw [if_pos hrem]
          by_cases hfrs : (jsStartsWith (stripSuffixS n "-rem") "font-size-" ||
              stripSuffixS n "-rem" == "radii-full" ||
              stripSuffixS n "-rem" == "spacing-px") = true
          · rw [if_pos hfrs]
            by_cases hrad : (stripSuffixS n "-rem" == "radii-full") = true
            · rw [if_pos hrad]
              have hbase : stripSuffixS n "-rem" = "radii-full" := by simpa using hrad
              have hco : ("radii-full" :: processed).contains b = true :=
                contains_cons_of processed _ b hproc
              by_cases hkk : k = "radii-full"
              · have hwk : remWritesKey n k = true := by
                  have hm' : isModeName n = false := by rwa [Bool.not_eq_true] at hmode
                  have he' : isExcluded n = false := by rwa [Bool.not_eq_true] at hexcl
                  simp only [remWritesKey, hm', he', hrem, hbase, hkk]
                  decide
                have hval := hwriters n w (List.mem_cons_self _ _) hwk
                have hval2 : jsGetG vars "radii-full" = xval := by
                  rw [← hval]
                  simp only [remWriteVal, hbase]
                  rw [if_pos (by decide)]
                have hlook2 : jsGetG (jsSetG prims "radii-full" (jsGetG vars "radii-full")) k =
                    some xval := by
                  rw [hkk, jsGetG_set_self, hval2]
                exact remPassGo_stable vars k xval b rest _ _ hrest hlook2 hco
              · have hlook2 : jsGetG (jsSetG prims "radii-full" (jsGetG vars "radii-full")) k =
                    some xval := by
                  rw [jsGetG_set_other _ _ _ _ hkk, hlook]
                exact remPassGo_stable vars k xval b rest _ _ hrest hlook2 hco
            · rw [if_neg hrad]
              by_cases hspc : (stripSuffixS n "-rem" == "spacing-px") = true
              · rw [if_pos hspc]
                have hbase : stripSuffixS n "-rem" = "spacing-px" := by simpa using hspc
                have hco : ("spacing-px" :: processed).contains b = true :=
                  contains_cons_of processed _ b hproc
                by_cases hkk : k = "spacing-px"
                · have hwk : remWritesKey n k = true := by
                    have hm' : isModeName n = false := by rwa [Bool.not_eq_true] at hmode
                    have he' : isExcluded n = false := by rwa [Bool.not_eq_true] at hexcl
                    simp only [remWritesKey, hm', he', hrem, hbase, hkk]
                    decide
                  have hval := hwriters n w (List.mem_cons_self _ _) hwk
                  have hval2 : jsGetG vars "spacing-px" = xval := by
                    rw [← hval]
                    simp only [remWriteVal, hbase]
                    rw [if_pos (by decide)]
                  have hlook2 : jsGetG (jsSetG prims "spacing-px" (jsGetG vars "spacing-px")) k =
                      some xval := by
                    rw [hkk, jsGetG_set_self, hval2]
                  exact remPassGo_stable vars k xval b rest _ _ hrest hlook2 hco
                · have hlook2 : jsGetG (jsSetG prims "spacing-px" (jsGetG vars "spacing-px")) k =
                      some xval := by
                    rw [jsGetG_set_other _ _ _ _ hkk, hlook]
                  exact remPassGo_stable vars k xval b rest _ _ hrest hlook2 hco
              · rw [if_neg hspc]
                exact remPassGo_stable vars k xval b rest prims processed hrest hlook hproc
          · rw [if_neg hfrs]
            have hco : (n :: stripSuffixS n "-rem" :: processed).contains b = true :=
              contains_cons_of _ _ b (contains_cons_of processed _ b hproc)
            have hfrs' : (jsStartsWith (stripSuffixS n "-rem") "font-size-" ||
                stripSuffixS n "-rem" == "radii-full" ||
                stripSuffixS n "-rem" == "spacing-px") = false := by
              rwa [Bool.not_eq_true] at hfrs
            obtain ⟨hab, hspc⟩ := Bool.or_eq_false_iff.mp hfrs'
            obtain ⟨hfs, hrad⟩ := Bool.or_eq_false_iff.mp hab
            by_cases hkk : simplifyName (stripSuffixS n "-rem") = k
            · have hwk : remWritesKey n k = true := by
                have hm' : isModeName n = false := by rwa [Bool.not_eq_true] at hmode
                have he' : isExcluded n = false := by rwa [Bool.not_eq_true] at hexcl
                simp [remWritesKey, hm', he', hrem, hfs, hrad, hspc, hkk]
              have hval := hwriters n w (List.mem_cons_self _ _) hwk
              by_cases htyp : jsStartsWith (stripSuffixS n "-rem") "typography-font-" = true
              · rw [if_pos htyp]
                have hval2 : jsGetG vars (stripSuffixS n "-rem") = xval := by
                  rw [← hval]
                  simp [remWriteVal, hrad, hspc, htyp]
                have hlook2 : jsGetG (jsSetG prims (simplifyName (stripSuffixS n "-rem"))
                    (jsGetG vars (stripSuffixS n "-rem"))) k = some xval := by
                  rw [hkk, jsGetG_set_self, hval2]
                exact remPassGo_stable vars k xval b rest _ _ hrest hlook2 hco
              · rw [if_neg htyp]
                have htyp' : jsStartsWith (stripSuffixS n "-rem") "typography-font-" = false := by
                  rwa [Bool.not_eq_true] at htyp
                have hval2 : (some (if w == "0rem" then "0" else w) : Option String) = xval := by
                  rw [← hval]
                  simp [remWriteVal, hrad, hspc, htyp']
                have hlook2 : jsGetG (jsSetG prims (simplifyName (stripSuffixS n "-rem"))
                    (some (if w == "0rem" then "0" else w))) k = some xval := by
                  rw [hkk, jsGetG_set_self, hval2]
                exact remPassGo_stable vars k xval b rest _ _ hrest hlook2 hco
            · by_cases htyp : jsStartsWith (stripSuffixS n "-rem") "typography-font-" = true
              · rw [if_pos htyp]
                have hlook2 : jsGetG (jsSetG prims (simplifyName (stripSuffixS n "-rem"))
                    (jsGetG vars (stripSuffixS n "-rem"))) k = some xval := by
                  rw [jsGetG_set_other _ _ _ _ (fun hh => hkk hh.symm)]
                  exact hlook
                exact remPassGo_stable vars k xval b rest _ _ hrest hlook2 hco
              · rw [if_neg htyp]
                have hlook2 : jsGetG (jsSetG prims (simplifyName (stripSuffixS n "-rem"))
                    (some (if w == "0rem" then "0" else w))) k = some xval := by
                  rw [jsGetG_set_other _ _ _ _ (fun hh => hkk hh.symm)]
                  exact hlook
                exact remPassGo_stable vars k xval b rest _ _ hrest hlook2 hco
        · rw [if_neg hrem]
          exact remPassGo_stable vars k xval b rest prims processed hrest hlook hproc

theorem contains_cons_self (l : List String) (x : String) : (x :: l).contains x = true := by
  rw [List.contains_cons]
  simp

/-- One step of the `-rem` pass is the pass on the tail from some state. -/
theorem remPassGo_cons_exists (vars : Table) (m w : String)
    (rest : List (String × String)) (prims : List (String × Option String))
    (processed : List String) :
    ∃ prims2 processed2,
      remPassGo vars ((m, w) :: rest) prims processed = remPassGo vars rest prims2 processed2 := by
  simp only [remPassGo]
  split_ifs <;> exact ⟨_, _, rfl⟩

/-- Processing a `-rem` entry at the head of the list that writes key `k`,
with no later conflicting writer, pins `k` to that entry's value and records
its base as processed. -/
theorem remPassGo_write_head (vars : Table) (k n v : String)
    (hkey : remWritesKey n k = true)
    (rest : List (String × String)) (prims : List (String × Option String))
    (processed : List String)
    (huniq : ∀ m u, (m, u) ∈ rest → remWritesKey m k = true →
      remWriteVal vars m u = remWriteVal vars n v) :
    jsGetG (remPassGo vars ((n, v) :: rest) prims processed).1 k =
      some (remWriteVal vars n v) ∧
    (remPassGo vars ((n, v) :: rest) prims processed).2.contains
      (stripSuffixS n "-rem") = true := by
  have hcomp := hkey
  simp only [remWritesKey, Bool.and_eq_true, Bool.not_eq_true'] at hcomp
  obtain ⟨⟨⟨⟨hm', he'⟩, hrem⟩, hdisj⟩, hsimp⟩ := hcomp
  have hsimpe : simplifyName (stripSuffixS n "-rem") = k := by simpa using hsimp
  simp only [remPassGo]
  rw [if_neg (by simp [hm']), if_neg (by simp [he']), if_pos hrem]
  by_cases hrad : (stripSuffixS n "-rem" == "radii-full") = true
  · have hbase : stripSuffixS n "-rem" = "radii-full" := by simpa using hrad
    rw [if_pos (by simp [hrad]), if_pos hrad]
    have hk : k = "radii-full" := by
      rw [hbase] at hsimpe
      rw [← hsimpe]
      decide
    have hval : (jsGetG vars "radii-full" : Option String) = remWriteVal vars n v := by
      simp only [remWriteVal, hbase]
      rw [if_pos (by decide)]
    refine remPassGo_stable vars k _ _ rest _ _ huniq ?_ ?_
    · rw [hk, jsGetG_set_self, hval]
    · rw [hbase]
      exact contains_cons_self processed _
  · have hrad' : (stripSuffixS n "-rem" == "radii-full") = false := by
      rwa [Bool.not_eq_true] at hrad
    by_cases hspc : (stripSuffixS n "-rem" == "spacing-px") = true
    · have hbase : stripSuffixS n "-rem" = "spacing-px" := by simpa using hspc
      rw [if_pos (by simp [hspc]), if_neg (by simp [hrad']), if_pos hspc]
      have hk : k = "spacing-px" := by
        rw [hbase] at hsimpe
        rw [← hsimpe]
        decide
      have hval : (jsGetG vars "spacing-px" : Option String) = remWriteVal vars n v := by
        simp only [remWriteVal, hbase]
        rw [if_pos (by decide)]
      refine remPassGo_stable vars k _ _ rest _ _ huniq ?_ ?_
      · rw [hk, jsGetG_set_self, hval]
      · rw [hbase]
        exact contains_cons_self processed _
    · have hspc' : (stripSuffixS n "-rem" == "spacing-px") = false := by
        rwa [Bool.not_eq_true] at hspc
      have hfs : jsStartsWith (stripSuffixS n "-rem") "font-size-" = false := by
        by_contra hc
        have hfs2 : jsStartsWith (stripSuffixS n "-rem") "font-size-" = true := by
          cases hx : jsStartsWith (stripSuffixS n "-rem") "font-size-"
          · exact absurd hx hc
          · rfl
        simp [hrad', hspc', hfs2] at hdisj
      rw [if_neg (by simp [hfs, hrad', hspc'])]
      by_cases htyp : jsStartsWith (stripSuffixS n "-rem") "typography-font-" = true
      · rw [if_pos htyp]
        have hval : (jsGetG vars (stripSuffixS n "-rem") : Option String) =
            remWriteVal vars n v := by
          simp only [remWriteVal, hrad', hspc']
          rw [if_neg (by simp), if_pos htyp]
        refine remPassGo_stable vars k _ _ rest _ _ huniq ?_ ?_
        · rw [← hsimpe, jsGetG_set_self, hval]
        · exact contains_cons_of _ _ _ (contains_cons_self processed _)
      · have htyp' : jsStartsWith (stripSuffixS n "-rem") "typography-font-" = false := by
          rwa [Bool.not_eq_true] at htyp
        rw [if_neg (by simp [htyp'])]
        have hval : (some (if v == "0rem" then "0" else v) : Option String) =
            remWriteVal vars n v := by
          simp [remWriteVal, hrad', hspc', htyp']
        refine remPassGo_stable vars k _ _ rest _ _ huniq ?_ ?_
        · rw [← hsimpe, jsGetG_set_self, hval]
        · exact contains_cons_of _ _ _ (contains_cons_self processed _)

/-- Processing a `-rem` entry `(n, v)` that writes key `k`, with no later
conflicting writer, pins `k` to that entry's value and records its base as
processed. -/
theorem remPassGo_write (vars : Table) (k n v : String)
    (hkey : remWritesKey n k = true) :
    ∀ (rest : List (String × String)) (prims : List (String × Option String))
      (processed : List String),
    (n, v) ∈ rest →
    (∀ m u, (m, u) ∈ rest → remWritesKey m k = true →
      remWriteVal vars m u = remWriteVal vars n v) →
    jsGetG (remPassGo vars rest prims processed).1 k = some (remWriteVal vars n v) ∧
    (remPassGo vars rest prims processed).2.contains (stripSuffixS n "-rem") = true
  | [], _, _, hmem, _ => by simp at hmem
  | (m, w) :: rest, prims, processed, hmem, huniq => by
    have huniq' : ∀ m2 u, (m2, u) ∈ rest → remWritesKey m2 k = true →
        remWriteVal vars m2 u = remWriteVal vars n v :=
      fun m2 u hm hw => huniq m2 u (List.mem_cons_of_mem _ hm) hw
    by_cases hhd : (m, w) = (n, v)
    · rw [hhd]
      exact remPassGo_write_head vars k n v hkey rest prims processed huniq'
    · have hmem' : (n, v) ∈ rest := by
        rcases List.mem_cons.mp hmem with h | h
        · exact absurd h.symm hhd
        · exact h
      obtain ⟨prims2, processed2, heq⟩ := remPassGo_cons_exists vars m w rest prims processed
      rw [heq]
      exact remPassGo_write vars k n v hkey rest prims2 processed2 hmem' huniq'

/-- Names the non-rem fallback pass writes under key `k`. -/
def fbWritesKey (vars : Table) (processed : List String) (n k : String) : Bool :=
  !(processed.contains n) && !(jsEndsWith n "-rem") && !isModeName n && !isExcluded n &&
    !(jsTruthyS (jsGetG vars (n ++ "-rem"))) && (simplifyName n == k)

/-- The value the fallback pass writes for entry `(n, v)` (on the path where
the reference match does not throw). -/
def fbWriteVal (vars : Table) (n v : String) : String :=
  let cleanValue := if v == "0px" then "0" else v
  if jsStartsWith n "font-family-" && jsStartsWith cleanValue "var(--typography-font-" then
    match matchVarRef cleanValue.data with
    | some (cap, _) =>
      match jsGetG vars (String.mk cap) with
      | some w => if w == "" then cleanValue else w
      | none => cleanValue
    | none => cleanValue
  else cleanValue

/-- Once `k` holds `xval` and every remaining fallback writer of `k` writes
`xval`, a successful fallback pass keeps `k` at `xval`. -/
theorem fallbackGo_stable (vars : Table) (processed : List String) (k : String)
    (xval : Option String) :
    ∀ (rest : List (String × String)) (prims prims2 : List (String × Option String)),
    (∀ m u, (m, u) ∈ rest → fbWritesKey vars processed m k = true →
      (some (fbWriteVal vars m u) : Option String) = xval) →
    fallbackGo vars processed rest prims = some prims2 →
    jsGetG prims k = some xval → jsGetG prims2 k = some xval
  | [], prims, prims2, _, heq, hlook => by
    simp only [fallbackGo] at heq
    exact (Option.some.inj heq) ▸ hlook
  | (m, w) :: rest, prims, prims2, hws, heq, hlook => by
    have hws' : ∀ m2 u, (m2, u) ∈ rest → fbWritesKey vars processed m2 k = true →
        (some (fbWriteVal vars m2 u) : Option String) = xval :=
      fun m2 u h2 hw2 => hws m2 u (List.mem_cons_of_mem _ h2) hw2
    simp only [fallbackGo] at heq
    by_cases h1 : (processed.contains m || jsEndsWith m "-rem") = true
    · rw [if_pos h1] at heq
      exact fallbackGo_stable vars processed k xval rest prims prims2 hws' heq hlook
    · rw [if_neg h1] at heq
      by_cases h2 : isModeName m = true
      · rw [if_pos h2] at heq
        exact fallbackGo_stable vars processed k xval rest prims prims2 hws' heq hlook
      · rw [if_neg h2] at heq
        by_cases h3 : isExcluded m = true
        · rw [if_pos h3] at heq
          exact fallbackGo_stable vars processed k xval rest prims prims2 hws' heq hlook
        · rw [if_neg h3] at heq
          by_cases h4 : jsTruthyS (jsGetG vars (m ++ "-rem")) = true
          · rw [if_pos h4] at heq
            exact fallbackGo_stable vars processed k xval rest prims prims2 hws' heq hlook
          · rw [if_neg h4] at heq
            obtain ⟨hc, hr⟩ := Bool.or_eq_false_iff.mp (by rwa [Bool.not_eq_true] at h1)
            have hm2 : isModeName m = false := by rwa [Bool.not_eq_true] at h2
            have he2 : isExcluded m = false := by rwa [Bool.not_eq_true] at h3
            have ht2 : jsTruthyS (jsGetG vars (m ++ "-rem")) = false := by
              rwa [Bool.not_eq_true] at h4
            by_cases h5 : (jsStartsWith m "font-family-" &&
                jsStartsWith (if w == "0px" then "0" else w) "var(--typography-font-") = true
            · rw [if_pos h5] at heq
              cases hmv : matchVarRef (if w == "0px" then "0" else (w : String)).data with
              | none =>
                rw [hmv] at heq
                exact absurd heq (by simp)
              | some pr =>
                obtain ⟨cap, r2⟩ := pr
                rw [hmv] at heq
                dsimp only at heq
                by_cases hkk : (simplifyName m == k) = true
                · have hkey : fbWritesKey vars processed m k = true := by
                    simp only [fbWritesKey, hc, hr, hm2, he2, ht2, hkk]
                    decide
                  have hval := hws m w (List.mem_cons_self _ _) hkey
                  have hvv : (fbWriteVal vars m w : String) =
                      (match jsGetG vars (String.mk cap) with
                        | some u => if u == "" then (if w == "0px" then "0" else w) else u
                        | none => (if w == "0px" then "0" else w)) := by
                    simp only [fbWriteVal, h5, if_true, hmv]
                  have hke : simplifyName m = k := by simpa using hkk
                  refine fallbackGo_stable vars processed k xval rest _ prims2 hws' heq ?_
                  rw [hke, jsGetG_set_self, ← hval, hvv]
                · have hne : k ≠ simplifyName m := by
                    intro hh
                    rw [hh] at hkk
                    simp at hkk
                  refine fallbackGo_stable vars processed k xval rest _ prims2 hws' heq ?_
                  rw [jsGetG_set_other _ _ _ _ hne]
                  exact hlook
            · rw [if_neg h5] at heq
              by_cases hkk : (simplifyName m == k) = true
              · have hkey : fbWritesKey vars processed m k = true := by
                  simp only [fbWritesKey, hc, hr, hm2, he2, ht2, hkk]
                  decide
                have hval := hws m w (List.mem_cons_self _ _) hkey
                have h5' : (jsStartsWith m "font-family-" &&
                    jsStartsWith (if w == "0px" then "0" else w) "var(--typography-font-") =
                      false := by
                  rwa [Bool.not_eq_true] at h5
                have hvv : (fbWriteVal vars m w : String) = (if w == "0px" then "0" else w) := by
                  simp only [fbWriteVal, h5']
                  rw [if_neg (by simp [h5'])]
                have hke : simplifyName m = k := by simpa using hkk
                refine fallbackGo_stable vars processed k xval rest _ prims2 hws' heq ?_
                rw [hke, jsGetG_set_self, ← hval, hvv]
              · have hne : k ≠ simplifyName m := by
                  intro hh
                  rw [hh] at hkk
                  simp at hkk
                refine fallbackGo_stable vars processed k xval rest _ prims2 hws' heq ?_
                rw [jsGetG_set_other _ _ _ _ hne]
                exact hlook

/-- One step of the fallback pass either throws or is the pass on the tail
from some state. -/
theorem fallbackGo_cons_exists (vars : Table) (processed : List String) (m w : String)
    (rest : List (String × String)) (prims : List (String × Option String)) :
    fallbackGo vars processed ((m, w) :: rest) prims = none ∨
    ∃ prims2, fallbackGo vars processed ((m, w) :: rest) prims =
      fallbackGo vars processed rest prims2 := by
  simp only [fallbackGo]
  by_cases g1 : (processed.contains m || jsEndsWith m "-rem") = true
  · rw [if_pos g1]
    exact Or.inr ⟨prims, rfl⟩
  · rw [if_neg g1]
    by_cases g2 : isModeName m = true
    · rw [if_pos g2]
      exact Or.inr ⟨prims, rfl⟩
    · rw [if_neg g2]
      by_cases g3 : isExcluded m = true
      · rw [if_pos g3]
        exact Or.inr ⟨prims, rfl⟩
      · rw [if_neg g3]
        by_cases g4 : jsTruthyS (jsGetG vars (m ++ "-rem")) = true
        · rw [if_pos g4]
          exact Or.inr ⟨prims, rfl⟩
        · rw [if_neg g4]
          by_cases g5 : (jsStartsWith m "font-family-" &&
              jsStartsWith (if w == "0px" then "0" else w) "var(--typography-font-") = true
          · rw [if_pos g5]
            cases matchVarRef ((if w == "0px" then "0" else w : String)).data with
            | none => exact Or.inl rfl
            | some pr =>
              obtain ⟨cap, r2⟩ := pr
              exact Or.inr ⟨_, rfl⟩
          · rw [if_neg g5]
            exact Or.inr ⟨_, rfl⟩

/-- Processing a fallback entry at the head that writes key `k`, with later
writers writing the same value, pins `k` in a successful pass. -/
theorem fallbackGo_write_head (vars : Table) (processed : List String) (k n v : String)
    (hkey : fbWritesKey vars processed n k = true)
    (rest : List (String × String)) (prims prims2 : List (String × Option String))
    (huniq : ∀ m u, (m, u) ∈ rest → fbWritesKey vars processed m k = true →
      fbWriteVal vars m u = fbWriteVal vars n v)
    (heq : fallbackGo vars processed ((n, v) :: rest) prims = some prims2) :
    jsGetG prims2 k = some (some (fbWriteVal vars n v)) := by
  have hcomp := hkey
  simp only [fbWritesKey, Bool.and_eq_true, Bool.not_eq_true'] at hcomp
  obtain ⟨⟨⟨⟨⟨hc, hr⟩, hm2⟩, he2⟩, ht2⟩, hkk⟩ := hcomp
  have hke : simplifyName n = k := by simpa using hkk
  simp only [fallbackGo] at heq
  rw [if_neg (by rw [hc, hr]; decide), if_neg (by rw [hm2]; decide),
    if_neg (by rw [he2]; decide), if_neg (by rw [ht2]; decide)] at heq
  by_cases h5 : (jsStartsWith n "font-family-" &&
      jsStartsWith (if v == "0px" then "0" else v) "var(--typography-font-") = true
  · rw [if_pos h5] at heq
    cases hmv : matchVarRef ((if v == "0px" then "0" else v : String)).data with
    | none =>
      rw [hmv] at heq
      exact absurd heq (by simp)
    | some pr =>
      obtain ⟨cap, r2⟩ := pr
      rw [hmv] at heq
      dsimp only at heq
      have hvv : (fbWriteVal vars n v : String) =
          (match jsGetG vars (String.mk cap) with
            | some u => if u == "" then (if v == "0px" then "0" else v) else u
            | none => (if v == "0px" then "0" else v)) := by
        simp only [fbWriteVal, h5, if_true, hmv]
      refine fallbackGo_stable vars processed k _ rest _ prims2
        (fun m u hm hw => congrArg some (huniq m u hm hw)) heq ?_
      rw [hke, jsGetG_set_self, hvv]
  · rw [if_neg h5] at heq
    have h5' : (jsStartsWith n "font-family-" &&
        jsStartsWith (if v == "0px" then "0" else v) "var(--typography-font-") = false := by
      rwa [Bool.not_eq_true] at h5
    have hvv : (fbWriteVal vars n v : String) = (if v == "0px" then "0" else v) := by
      simp only [fbWriteVal, h5']
      rw [if_neg (show ¬(false = true) by decide)]
    refine fallbackGo_stable vars processed k _ rest _ prims2
      (fun m u hm hw => congrArg some (huniq m u hm hw)) heq ?_
    rw [hke, jsGetG_set_self, hvv]

/-- Processing a fallback entry `(n, v)` that writes key `k`, with later
writers writing the same value, pins `k` in a successful pass. -/
theorem fallbackGo_write (vars : Table) (processed : List String) (k n v : String)
    (hkey : fbWritesKey vars processed n k = true) :
    ∀ (rest : List (String × String)) (prims prims2 : List (String × Option String)),
    (n, v) ∈ rest →
    (∀ m u, (m, u) ∈ rest → fbWritesKey vars processed m k = true →
      fbWriteVal vars m u = fbWriteVal vars n v) →
    fallbackGo vars processed rest prims = some prims2 →
    jsGetG prims2 k = some (some (fbWriteVal vars n v))
  | [], _, _, hmem, _, _ => by simp at hmem
  | (m, w) :: rest, prims, prims2, hmem, huniq, heq => by
    have huniq' : ∀ m2 u, (m2, u) ∈ rest → fbWritesKey vars processed m2 k = true →
        fbWriteVal vars m2 u = fbWriteVal vars n v :=
      fun m2 u hm hw => huniq m2 u (List.mem_cons_of_mem _ hm) hw
    by_cases hhd : (m, w) = (n, v)
    · rw [hhd] at heq
      exact fallbackGo_write_head vars processed k n v hkey rest prims prims2 huniq' heq
    · have hmem' : (n, v) ∈ rest := by
        rcases List.mem_cons.mp hmem with h | h
        · exact absurd h.symm hhd
        · exact h
      rcases fallbackGo_cons_exists vars processed m w rest prims with hnone | ⟨p2, he⟩
      · rw [hnone] at heq
        exact absurd heq (by simp)
      · rw [he] at heq
        exact fallbackGo_write vars processed k n v hkey rest p2 prims2 hmem' huniq' heq

theorem jsStartsWith_append_self (p x : String) : jsStartsWith (p ++ x) p = true := by
  unfold jsStartsWith
  rw [String.data_append]
  exact startsWithL_self_append p.data x.data

theorem mem_jsSetG {α : Type} (t : List (String × α)) (k : String) (v : α) (p : String × α)
    (h : p ∈ jsSetG t k v) : p ∈ t ∨ p.1 = k := by
  unfold jsSetG at h
  by_cases ha : t.any (fun q => q.1 == k)
  · rw [if_pos ha] at h
    rw [List.mem_map] at h
    obtain ⟨q, hq, hqe⟩ := h
    by_cases hk : (q.1 == k) = true
    · right
      rw [if_pos hk] at hqe
      rw [← hqe]
    · left
      rw [if_neg hk] at hqe
      exact hqe ▸ hq
  · rw [if_neg ha, List.mem_append] at h
    rcases h with h | h
    · exact Or.inl h
    · right
      rw [List.mem_singleton] at h
      rw [h]

/-- `Object.assign` of the font sizes leaves every other key unchanged. -/
theorem foldl_assign_preserve (k : String) :
    ∀ (fs : Table) (prims : List (String × Option String)),
    (∀ q, q ∈ fs → q.1 ≠ k) →
    jsGetG (fs.foldl (fun p kv => jsSetG p kv.1 (some kv.2)) prims) k = jsGetG prims k
  | [], prims, _ => rfl
  | q :: rest, prims, h => by
    rw [List.foldl_cons]
    rw [foldl_assign_preserve k rest _ (fun q2 hq2 => h q2 (List.mem_cons_of_mem _ hq2))]
    exact jsGetG_set_other _ _ _ _ (fun hh => h q (List.mem_cons_self _ _) hh.symm)

/-- Every key the emission loop produces carries the `font-size-step-` marker. -/
theorem emitSteps_keys (mw xw : JNum) (z : Int) :
    ∀ (rest : List StepData) (i : Nat) (acc : Table),
    (∀ q, q ∈ acc → jsStartsWith q.1 "font-size-step-" = true) →
    ∀ q, q ∈ emitSteps mw xw z i rest acc → jsStartsWith q.1 "font-size-step-" = true
  | [], _, acc, hacc, q, hq => hacc q hq
  | d :: rest, i, acc, hacc, q, hq => by
    rw [emitSteps] at hq
    cases hse : stepEntry mw xw d with
    | some v =>
      rw [hse] at hq
      refine emitSteps_keys mw xw z rest (i + 1) _ ?_ q hq
      intro q2 hq2
      rcases mem_jsSetG _ _ _ _ hq2 with h2 | h2
      · exact hacc q2 h2
      · rw [h2]
        exact jsStartsWith_append_self _ _
    | none =>
      rw [hse] at hq
      exact emitSteps_keys mw xw z rest (i + 1) acc hacc q hq

/-- Every key emitted by the typography synthesizer carries the
`font-size-step-` marker. -/
theorem processFontSizes_keys (vars : Table) (css : String) (fs : Table)
    (h : processFontSizes vars css = some fs) :
    ∀ q, q ∈ fs → jsStartsWith q.1 "font-size-step-" = true := by
  unfold processFontSizes at h
  cases h1 : jsGetG vars "viewport-min-width" with
  | none =>
    rw [h1] at h
    simp at h
  | some mr =>
    rw [h1] at h
    cases h2 : jsGetG vars "viewport-max-width" with
    | none =>
      rw [h2] at h
      simp at h
    | some xr =>
      rw [h2] at h
      have h3 : emitSteps (parseFloatQ (stripQuotes mr)) (parseFloatQ (stripQuotes xr))
          (findStep0Index (sortCmp stepCmp (dedupSteps (collectSteps (splitOnNl css.data)) []))) 0
          (sortCmp stepCmp (dedupSteps (collectSteps (splitOnNl css.data)) [])) [] = fs := by
        simpa using h
      intro q hq
      rw [← h3] at hq
      exact emitSteps_keys _ _ _ _ 0 [] (by simp) q hq

/-- Decomposition of a successful `processVariables` run into its parts. -/
theorem processVariables_parts (vars : Table) (css : String) (r : ProcessedResult)
    (h : processVariables vars css = some r) :
    ∃ prims2 fs,
      fallbackPass vars (remPass vars).2 (remPass vars).1 = some prims2 ∧
      processFontSizes vars css = some fs ∧
      r.primitives = fs.foldl (fun p kv => jsSetG p kv.1 (some kv.2)) prims2 ∧
      r.lightMode = (modePass vars).1 ∧ r.darkMode = (modePass vars).2 := by
  unfold processVariables at h
  cases hmp : modePass vars with
  | mk lm dm =>
    cases hrp : remPass vars with
    | mk prims1 processed =>
      rw [hmp, hrp] at h
      dsimp only at h
      cases hfb : fallbackPass vars processed prims1 with
      | none =>
        rw [hfb] at h
        simp at h
      | some prims2 =>
        rw [hfb] at h
        cases hfs : processFontSizes vars css with
        | none =>
          rw [hfs] at h
          simp at h
        | some fs =>
          rw [hfs] at h
          have h3 : r = ⟨fs.foldl (fun p kv => jsSetG p kv.1 (some kv.2)) prims2, lm, dm⟩ := by
            simpa using h.symm
          refine ⟨prims2, fs, ?_, rfl, ?_, ?_, ?_⟩
          · rfl
          · rw [h3]
          · rw [h3]
          · rw [h3]

/-! ### Suffix lemmas -/

theorem jsEndsWith_append_self (a p : String) : jsEndsWith (a ++ p) p = true := by
  unfold jsEndsWith
  rw [String.data_append, List.reverse_append]
  exact startsWithL_self_append _ _

theorem stripSuffix_append (a p : String) : stripSuffixS (a ++ p) p = a := by
  unfold stripSuffixS
  rw [if_pos (jsEndsWith_append_self a p)]
  unfold dropEndS
  apply String.ext
  rw [String.data_append]
  have hlen : (a.data ++ p.data).length - p.data.length = a.data.length := by
    rw [List.length_append]
    omega
  rw [hlen]
  exact List.take_left a.data p.data

theorem isModeName_append_rem (base : String) : isModeName (base ++ "-rem") = false := by
  unfold isModeName jsEndsWith
  rw [String.data_append, List.reverse_append]
  rw [startsWithL_mismatch _ _ _ (by decide) (by decide)]
  rw [startsWithL_mismatch _ _ _ (by decide) (by decide)]
  rfl

theorem stripSuffix_id_of_not_ends (s pat : String) (h : jsEndsWith s pat = false) :
    stripSuffixS s pat = s := by
  unfold stripSuffixS
  rw [if_neg (by simp [h])]

/-- A string ending in `pat` is its stripped form plus `pat`. -/
theorem stripSuffix_recomp (s pat : String) (h : jsEndsWith s pat = true) :
    s = stripSuffixS s pat ++ pat := by
  have hrev : startsWithL pat.data.reverse s.data.reverse = true := h
  have key : List.take (s.data.length - pat.data.length) s.data ++ pat.data = s.data := by
    have hd := startsWithL_decomp pat.data.reverse s.data.reverse hrev
    have h2 : (s.data.reverse.drop pat.data.reverse.length).reverse ++ pat.data = s.data := by
      calc (s.data.reverse.drop pat.data.reverse.length).reverse ++ pat.data
          = (pat.data.reverse ++ s.data.reverse.drop pat.data.reverse.length).reverse := by
            rw [List.reverse_append, List.reverse_reverse]
        _ = s.data.reverse.reverse := by rw [← hd]
        _ = s.data := List.reverse_reverse _
    have h3 : (s.data.reverse.drop pat.data.reverse.length).reverse =
        List.take (s.data.length - pat.data.length) s.data := by
      rw [List.reverse_drop, List.reverse_reverse, List.length_reverse, List.length_reverse]
    rw [← h3]
    exact h2
  unfold stripSuffixS
  rw [if_pos h]
  unfold dropEndS
  apply String.ext
  rw [String.data_append]
  exact key.symm

theorem startsWithL_trans : ∀ (p q s : List Char),
    startsWithL q s = true → startsWithL p q = true → startsWithL p s = true
  | [], _, _, _, _ => rfl
  | a :: as, [], s, _, h2 => by simp [startsWithL] at h2
  | a :: as, b :: bs, [], h1, _ => by simp [startsWithL] at h1
  | a :: as, b :: bs, c :: cs, h1, h2 => by
    simp only [startsWithL, Bool.and_eq_true, beq_iff_eq] at h1 h2 ⊢
    exact ⟨h2.1.trans h1.1, startsWithL_trans as bs cs h1.2 h2.2⟩

/-- If a simplified name begins with `font-size-`, so did the raw name. -/
theorem simplifyName_fs (s : String) (h : jsStartsWith (simplifyName s) "font-size-" = true) :
    jsStartsWith s "font-size-" = true := by
  rw [simplifyName_eq_alt] at h
  unfold simplifyNameAlt at h
  split_ifs at h
  · rw [jsStartsWith_rep_block "border-" _ "font-size-" (by decide) (by decide)] at h
    exact absurd h (by simp)
  · rw [jsStartsWith_rep_block "size-" _ "font-size-" (by decide) (by decide)] at h
    exact absurd h (by simp)
  · rw [jsStartsWith_rep_block "surface-" _ "font-size-" (by decide) (by decide)] at h
    exact absurd h (by simp)
  · rw [jsStartsWith_rep_block "text-" _ "font-size-" (by decide) (by decide)] at h
    exact absurd h (by simp)
  · rw [jsStartsWith_rep_block "icon-" _ "font-size-" (by decide) (by decide)] at h
    exact absurd h (by simp)
  · rw [jsStartsWith_rep_block "outline-" _ "font-size-" (by decide) (by decide)] at h
    exact absurd h (by simp)
  · rw [jsStartsWith_rep_block "font-family-" _ "font-size-" (by decide) (by decide)] at h
    exact absurd h (by simp)
  · exact h

/-! ### Table-level consequences for the `-rem` resolution rules -/

/-- The `radii-full`/`spacing-px` exception: whenever the `-rem` companion of
one of these keys exists, the emitted primitive is the raw table's original
entry for the base key, read verbatim (regardless of the `-rem` value). -/
theorem pxKeyKept (vars : Table) (css : String) (r : ProcessedResult) (key v0 : String)
    (hk : key = "radii-full" ∨ key = "spacing-px")
    (hmem : (key ++ "-rem", v0) ∈ vars)
    (h : processVariables vars css = some r) :
    jsGetG r.primitives key = some (jsGetG vars key) := by
  obtain ⟨prims2, fs, hfb, hfs, hprim, _, _⟩ := processVariables_parts vars css r h
  have hkey : remWritesKey (key ++ "-rem") key = true := by
    rcases hk with hk | hk <;> subst hk <;> decide
  have hstrip : stripSuffixS (key ++ "-rem") "-rem" = key := by
    rcases hk with hk | hk <;> subst hk <;> decide
  have hcond : (key == "radii-full" || key == "spacing-px") = true := by
    rcases hk with hk | hk <;> subst hk <;> decide
  have hfix : ∀ s2, simplifyName s2 = key → s2 = key := by
    rcases hk with hk | hk <;> subst hk <;>
      exact fun s2 hs => simplifyName_fixed s2 _ (by decide) (by decide) (by decide) (by decide)
        (by decide) (by decide) (by decide) hs
  have hval : remWriteVal vars (key ++ "-rem") v0 = jsGetG vars key := by
    simp only [remWriteVal, hstrip]
    rw [if_pos hcond]
  have huniq : ∀ m u, (m, u) ∈ vars → remWritesKey m key = true →
      remWriteVal vars m u = remWriteVal vars (key ++ "-rem") v0 := by
    intro m u hm hw
    simp only [remWritesKey, Bool.and_eq_true, Bool.not_eq_true'] at hw
    obtain ⟨⟨⟨⟨_, _⟩, hrem⟩, _⟩, hsimp⟩ := hw
    have hsimpe : simplifyName (stripSuffixS m "-rem") = key := by simpa using hsimp
    have hbase : stripSuffixS m "-rem" = key := hfix _ hsimpe
    have hm2 : m = key ++ "-rem" := by
      have h0 := stripSuffix_recomp m "-rem" hrem
      rw [hbase] at h0
      exact h0
    rw [hm2]
    simp only [remWriteVal, hstrip]
    rw [if_pos hcond, if_pos hcond]
  obtain ⟨hlook1, hproc1⟩ :=
    remPassGo_write vars key (key ++ "-rem") v0 hkey vars [] [] hmem huniq
  rw [hval] at hlook1
  rw [hstrip] at hproc1
  have hproc2 : (remPass vars).2.contains key = true := hproc1
  have hfbw : ∀ m u, (m, u) ∈ vars → fbWritesKey vars (remPass vars).2 m key = true →
      (some (fbWriteVal vars m u) : Option String) = jsGetG vars key := by
    intro m u hm hw
    exfalso
    simp only [fbWritesKey, Bool.and_eq_true, Bool.not_eq_true'] at hw
    obtain ⟨⟨⟨⟨⟨hcont, _⟩, _⟩, _⟩, _⟩, hsimp⟩ := hw
    have hsimpe : simplifyName m = key := by simpa using hsimp
    have hm2 : m = key := hfix _ hsimpe
    rw [hm2, hproc2] at hcont
    exact absurd hcont (by simp)
  have hlook2 := fallbackGo_stable vars (remPass vars).2 key (jsGetG vars key)
    vars (remPass vars).1 prims2 hfbw hfb hlook1
  have hne : ∀ q, q ∈ fs → q.1 ≠ key := by
    intro q hq he
    have hq2 := processFontSizes_keys vars css fs hfs q hq
    rw [he] at hq2
    rcases hk with hk | hk <;> subst hk <;> exact absurd hq2 (by decide)
  rw [hprim, foldl_assign_preserve key fs prims2 hne]
  exact hlook2

/-- The general `-rem` resolution rule: a non-exceptional `base-rem` entry is
emitted as `simplifyName base` carrying the rem value (with `0rem`
normalized), provided no other raw entry targets the same simplified key. -/
theorem remRuleKept (vars : Table) (css : String) (r : ProcessedResult) (base v : String)
    (h : processVariables vars css = some r)
    (hmem : (base ++ "-rem", v) ∈ vars)
    (hnex : isExcluded (base ++ "-rem") = false)
    (hnrem : jsEndsWith base "-rem" = false)
    (hnfs : jsStartsWith base "font-size-" = false)
    (hnrad : (base == "radii-full") = false)
    (hnspc : (base == "spacing-px") = false)
    (hntyp : jsStartsWith base "typography-font-" = false)
    (huniq : ∀ m u, (m, u) ∈ vars →
      simplifyName (stripSuffixS m "-rem") = simplifyName base →
      (m, u) = (base ++ "-rem", v) ∨ m = base) :
    jsGetG r.primitives (simplifyName base) = some (some (if v == "0rem" then "0" else v)) := by
  obtain ⟨prims2, fs, hfb, hfs, hprim, _, _⟩ := processVariables_parts vars css r h
  have hkey : remWritesKey (base ++ "-rem") (simplifyName base) = true := by
    simp [remWritesKey, isModeName_append_rem, hnex, jsEndsWith_append_self,
      stripSuffix_append, hnrad, hnspc, hnfs]
  have huniq2 : ∀ m u, (m, u) ∈ vars → remWritesKey m (simplifyName base) = true →
      remWriteVal vars m u = remWriteVal vars (base ++ "-rem") v := by
    intro m u hm hw
    simp only [remWritesKey, Bool.and_eq_true, Bool.not_eq_true'] at hw
    obtain ⟨⟨⟨⟨_, _⟩, hrem⟩, _⟩, hsimp⟩ := hw
    have hsimpe : simplifyName (stripSuffixS m "-rem") = simplifyName base := by
      simpa using hsimp
    rcases huniq m u hm hsimpe with heq | heq
    · have hm2 : m = base ++ "-rem" := congrArg Prod.fst heq
      have hu2 : u = v := congrArg Prod.snd heq
      rw [hm2, hu2]
    · rw [heq, hnrem] at hrem
      exact absurd hrem (by simp)
  obtain ⟨hlook1, hproc1⟩ :=
    remPassGo_write vars (simplifyName base) (base ++ "-rem") v hkey vars [] [] hmem huniq2
  rw [stripSuffix_append] at hproc1
  have hproc2 : (remPass vars).2.contains base = true := hproc1
  have hval : remWriteVal vars (base ++ "-rem") v = some (if v == "0rem" then "0" else v) := by
    simp only [remWriteVal, stripSuffix_append]
    rw [if_neg (by simp [hnrad, hnspc]), if_neg (by simp [hntyp])]
  rw [hval] at hlook1
  have hfbw : ∀ m u, (m, u) ∈ vars →
      fbWritesKey vars (remPass vars).2 m (simplifyName base) = true →
      (some (fbWriteVal vars m u) : Option String) =
        some (if v == "0rem" then "0" else v) := by
    intro m u hm hw
    exfalso
    simp only [fbWritesKey, Bool.and_eq_true, Bool.not_eq_true'] at hw
    obtain ⟨⟨⟨⟨⟨hcont, hmrem⟩, _⟩, _⟩, _⟩, hsimp⟩ := hw
    have hsid : stripSuffixS m "-rem" = m := stripSuffix_id_of_not_ends m "-rem" hmrem
    have hsimpe : simplifyName (stripSuffixS m "-rem") = simplifyName base := by
      rw [hsid]
      simpa using hsimp
    rcases huniq m u hm hsimpe with heq | heq
    · have hm2 : m = base ++ "-rem" := congrArg Prod.fst heq
      rw [hm2, jsEndsWith_append_self] at hmrem
      exact absurd hmrem (by simp)
    · rw [heq, hproc2] at hcont
      exact absurd hcont (by simp)
  have hlook2 := fallbackGo_stable vars (remPass vars).2 (simplifyName base)
    (some (if v == "0rem" then "0" else v)) vars (remPass vars).1 prims2 hfbw hfb hlook1
  have hne : ∀ q, q ∈ fs → q.1 ≠ simplifyName base := by
    intro q hq he
    have hq2 := processFontSizes_keys vars css fs hfs q hq
    rw [he] at hq2
    have h3 : jsStartsWith (simplifyName base) "font-size-" = true := by
      unfold jsStartsWith at hq2 ⊢
      exact startsWithL_trans _ _ _ hq2 (by decide)
    have h4 := simplifyName_fs base h3
    rw [hnfs] at h4
    exact absurd h4 (by simp)
  rw [hprim, foldl_assign_preserve (simplifyName base) fs prims2 hne]
  exact hlook2

/-! ### Claim theorems -/

/-- Concrete input for the px-exception claim: both exceptional keys with
`-rem` companions, and an ordinary spacing token with one. -/
def pxExampleCSS : String :=
  "--viewport-min-width: \"320\";\n--viewport-max-width: \"1280\";\n--spacing-px: 1px;\n--spacing-px-rem: 0.0625rem;\n--radii-full: 9999px;\n--radii-full-rem: 625rem;\n--spacing-4: 16px;\n--spacing-4-rem: 1rem;\n"

/-- **C9**: `spacing-px` and `radii-full` always retain their original pixel
value in the output regardless of any sibling `-rem` entry — the original
px-valued entry looked up by base name in the raw table is emitted verbatim —
while any other (non-font-size, non-font-family) primitive with a `-rem`
sibling is emitted under the simplified base name with the rem value (`0rem`
normalized to `0`), provided no other raw entry collides on the simplified
key.  A concrete run shows `--radii-full: 9999px;` and `--spacing-px: 1px;`
kept in px while `--spacing-4` is emitted in rem. -/
theorem C9_px_exception_and_rem_rule :
    (∀ (vars : Table) (css : String) (r : ProcessedResult) (v0 : String),
        processVariables vars css = some r → ("radii-full-rem", v0) ∈ vars →
        jsGetG r.primitives "radii-full" = some (jsGetG vars "radii-full")) ∧
    (∀ (vars : Table) (css : String) (r : ProcessedResult) (v0 : String),
        processVariables vars css = some r → ("spacing-px-rem", v0) ∈ vars →
        jsGetG r.primitives "spacing-px" = some (jsGetG vars "spacing-px")) ∧
    (∀ (vars : Table) (css : String) (r : ProcessedResult) (base v : String),
        processVariables vars css = some r → (base ++ "-rem", v) ∈ vars →
        isExcluded (base ++ "-rem") = false → jsEndsWith base "-rem" = false →
        jsStartsWith base "font-size-" = false → (base == "radii-full") = false →
        (base == "spacing-px") = false → jsStartsWith base "typography-font-" = false →
        (∀ m u, (m, u) ∈ vars → simplifyName (stripSuffixS m "-rem") = simplifyName base →
          (m, u) = (base ++ "-rem", v) ∨ m = base) →
        jsGetG r.primitives (simplifyName base) =
          some (some (if v == "0rem" then "0" else v))) ∧
    ((transformCSS pxExampleCSS).map (fun o => jsIncludes o "--radii-full: 9999px;") =
        some true ∧
      (transformCSS pxExampleCSS).map (fun o => jsIncludes o "--spacing-px: 1px;") =
        some true ∧
      (transformCSS pxExampleCSS).map (fun o => jsIncludes o "--spacing-4: 1rem;") =
        some true) := by
  refine ⟨?_, ?_, ?_, ?_, ?_, ?_⟩
  · intro vars css r v0 h hmem
    exact pxKeyKept vars css r "radii-full" v0 (Or.inl rfl) hmem h
  · intro vars css r v0 h hmem
    exact pxKeyKept vars css r "spacing-px" v0 (Or.inr rfl) hmem h
  · intro vars css r base v h hmem hnex hnrem hnfs hnrad hnspc hntyp huniq
    exact remRuleKept vars css r base v h hmem hnex hnrem hnfs hnrad hnspc hntyp huniq
  · decide
  · decide
  · decide

/-- Witness for C9: the px exception and the rem rule applied to the concrete
run on `pxExampleCSS`. -/
theorem C9_px_exception_and_rem_rule_witness :
    (processVariables (parseVariables pxExampleCSS) pxExampleCSS).map
        (fun r => (jsGetG r.primitives "radii-full", jsGetG r.primitives "spacing-px",
          jsGetG r.primitives "spacing-4")) =
      some (some (some "9999px"), some (some "1px"), some (some "1rem")) := by
  cases hr : processVariables (parseVariables pxExampleCSS) pxExampleCSS with
  | none => exact absurd hr (by decide)
  | some r =>
    have h1 := C9_px_exception_and_rem_rule.1 (parseVariables pxExampleCSS) pxExampleCSS r
      "625rem" hr (by decide)
    have h2 := (C9_px_exception_and_rem_rule.2.1) (parseVariables pxExampleCSS) pxExampleCSS r
      "0.0625rem" hr (by decide)
    have h3 := (C9_px_exception_and_rem_rule.2.2.1) (parseVariables pxExampleCSS) pxExampleCSS r
      "spacing-4" "1rem" hr (by decide) (by decide) (by decide) (by decide) (by decide)
      (by decide) (by decide) ?huniq
    case huniq =>
      intro m u hm hsimp
      rw [show parseVariables pxExampleCSS =
        [("viewport-min-width", "\"320\""), ("viewport-max-width", "\"1280\""),
         ("spacing-px", "1px"), ("spacing-px-rem", "0.0625rem"), ("radii-full", "9999px"),
         ("radii-full-rem", "625rem"), ("spacing-4", "16px"), ("spacing-4-rem", "1rem")]
        from by decide] at hm
      simp only [List.mem_cons, List.not_mem_nil, or_false, Prod.mk.injEq] at hm
      rcases hm with ⟨e1, e2⟩ | ⟨e1, e2⟩ | ⟨e1, e2⟩ | ⟨e1, e2⟩ | ⟨e1, e2⟩ | ⟨e1, e2⟩ |
        ⟨e1, e2⟩ | ⟨e1, e2⟩ <;> subst e1 <;>
        first
          | (subst e2; exact Or.inl rfl)
          | exact Or.inr rfl
          | exact absurd hsimp (by decide)
    rw [Option.map_some']
    rw [show jsGetG (parseVariables pxExampleCSS) "radii-full" = some "9999px" from by decide]
      at h1
    rw [show jsGetG (parseVariables pxExampleCSS) "spacing-px" = some "1px" from by decide]
      at h2
    rw [show simplifyName "spacing-4" = "spacing-4" from by decide] at h3
    rw [h1, h2]
    rw [show (if ("1rem" : String) == "0rem" then "0" else "1rem") = "1rem" from by decide]
      at h3
    rw [h3]

/-- The prefixes that make `simplifyName` rewrite. -/
def simplifyTrigger (s : String) : Bool :=
  jsStartsWith s "border-border-" || jsStartsWith s "size-size-" ||
    jsStartsWith s "surface-surface-" || jsStartsWith s "text-text-" ||
    jsStartsWith s "icon-icon-" || jsStartsWith s "outline-outline-" ||
    jsStartsWith s "typography-font-"

theorem simplifyName_id_of_no_trigger (s : String) (h : simplifyTrigger s = false) :
    simplifyName s = s := by
  rw [simplifyName_eq_alt]
  unfold simplifyNameAlt
  simp only [simplifyTrigger, Bool.or_eq_false_iff] at h
  obtain ⟨⟨⟨⟨⟨⟨h1, h2⟩, h3⟩, h4⟩, h5⟩, h6⟩, h7⟩ := h
  rw [if_neg (by simp [h1]), if_neg (by simp [h2]), if_neg (by simp [h3]),
    if_neg (by simp [h4]), if_neg (by simp [h5]), if_neg (by simp [h6]),
    if_neg (by simp [h7])]

/-- **C4 counterexample**: `simplifyName` is not idempotent: a tripled
self-referential prefix loses one copy per application, so
`border-border-border-a` simplifies to `border-border-a` and then again to
`border-a`. -/
theorem C4_simplifyName_not_idempotent :
    simplifyName (simplifyName "border-border-border-a") ≠
      simplifyName "border-border-border-a" := by decide

/-- **C4 (amended)**: name simplification is idempotent on every name whose
simplified form does not itself begin with one of the seven rewrite-trigger
prefixes (`border-border-`, `size-size-`, `surface-surface-`, `text-text-`,
`icon-icon-`, `outline-outline-`, `typography-font-`); the unrestricted claim
fails, e.g. on `border-border-border-a`. -/
theorem C4_simplifyName_idempotent_amended (x : String)
    (h : simplifyTrigger (simplifyName x) = false) :
    simplifyName (simplifyName x) = simplifyName x :=
  simplifyName_id_of_no_trigger (simplifyName x) h

theorem C4_simplifyName_idempotent_amended_witness :
    simplifyTrigger (simplifyName "surface-surface-background") = false ∧
    simplifyName (simplifyName "surface-surface-background") =
      simplifyName "surface-surface-background" :=
  ⟨by decide, C4_simplifyName_idempotent_amended "surface-surface-background" (by decide)⟩

/-- The clamp-generation example input of the spec. -/
def clampExampleCSS : String :=
  "--viewport-min-width: \"320\";\n--viewport-max-width: \"1280\";\n--font-size-min-step-0-rem: 1.125rem;\n--font-size-max-step-0-rem: 1.25rem;\n"

/-- **C2 counterexample**: on the spec's own example the emitted `font-size-step-0`
entry is not `clamp(1.125rem, 1.0786rem + 0.1905vw, 1.25rem)`. -/
theorem C2_clamp_example_counterexample :
    (processFontSizes (parseVariables clampExampleCSS) clampExampleCSS).map
        (fun t => jsGetG t "font-size-step-0") ≠
      some (some "clamp(1.125rem, 1.0786rem + 0.1905vw, 1.25rem)") := by decide

/-- **C2 (amended)**: per the formula (pxPerRem = 16, minW = 20, maxW = 80,
slope = (1.25 − 1.125)/60, Y = −20·slope + 1.125, four decimals on Y and on
slope·100) the emitted entry is `clamp(1.125rem, 1.0833rem + 0.2083vw,
1.25rem)`, both at the `generateClamp` level and end to end. -/
theorem C2_clamp_example_amended :
    generateClamp (some ⟨320, 1⟩) (some ⟨1280, 1⟩) (some ⟨1125, 1000⟩) (some ⟨1250, 1000⟩) =
      "clamp(1.125rem, 1.0833rem + 0.2083vw, 1.25rem)" ∧
    (processFontSizes (parseVariables clampExampleCSS) clampExampleCSS).map
        (fun t => jsGetG t "font-size-step-0") =
      some (some "clamp(1.125rem, 1.0833rem + 0.2083vw, 1.25rem)") := by decide

/-- Both viewport globals present, the first one non-numeric. -/
def nonNumericViewportCSS : String :=
  "--viewport-min-width: \"abc\";\n--viewport-max-width: \"1280\";\n--font-size-min-step-0-rem: 1.125rem;\n--font-size-max-step-0-rem: 1.25rem;\n"

theorem processFontSizes_none_of_absent (vars : Table) (css : String)
    (h : jsGetG vars "viewport-min-width" = none ∨ jsGetG vars "viewport-max-width" = none) :
    processFontSizes vars css = none := by
  unfold processFontSizes
  rcases h with h | h
  · rw [h]
    rfl
  · cases h1 : jsGetG vars "viewport-min-width" with
    | none => rfl
    | some mr =>
      rw [h]
      rfl

theorem processVariables_none_of_absent (vars : Table) (css : String)
    (h : jsGetG vars "viewport-min-width" = none ∨ jsGetG vars "viewport-max-width" = none) :
    processVariables vars css = none := by
  unfold processVariables
  cases hmp : modePass vars with
  | mk lm dm =>
    cases hrp : remPass vars with
    | mk prims1 processed =>
      dsimp only
      cases hfb : fallbackPass vars processed prims1 with
      | none => rfl
      | some prims2 =>
        rw [processFontSizes_none_of_absent vars css h]
        rfl

/-- **C3 counterexample**: an input whose `viewport-min-width` holds the
non-numeric quoted value `"abc"` does not abort the transform — it succeeds
and emits `NaN` text into the clamp entry. -/
theorem C3_nonnumeric_viewport_counterexample :
    (transformCSS nonNumericViewportCSS).isSome = true ∧
    parseFloatQ (stripQuotes "\"abc\"") = none ∧
    (transformCSS nonNumericViewportCSS).map (fun o => jsIncludes o "NaN") = some true := by
  decide

/-- **C3 (amended)**: the typography stage throws — aborting the whole
transform with no output — precisely when a viewport global is absent from the
table; when both keys are present the stage always proceeds, whether or not
the values are numeric (non-numeric values flow into the output as NaN
text). -/
theorem C3_viewport_failure_amended :
    (∀ (vars : Table) (css : String),
        jsGetG vars "viewport-min-width" = none ∨ jsGetG vars "viewport-max-width" = none →
        processFontSizes vars css = none) ∧
    (∀ (css : String),
        jsGetG (parseVariables css) "viewport-min-width" = none ∨
          jsGetG (parseVariables css) "viewport-max-width" = none →
        transformCSS css = none) ∧
    (∀ (vars : Table) (css : String) (v1 v2 : String),
        jsGetG vars "viewport-min-width" = some v1 →
        jsGetG vars "viewport-max-width" = some v2 →
        (processFontSizes vars css).isSome = true) := by
  refine ⟨processFontSizes_none_of_absent, ?_, ?_⟩
  · intro css h
    show (processVariables (parseVariables css) css).bind
        (fun processed => some (generateOutput processed)) = none
    rw [processVariables_none_of_absent (parseVariables css) css h]
    rfl
  · intro vars css v1 v2 h1 h2
    unfold processFontSizes
    rw [h1, h2]
    rfl

theorem C3_viewport_failure_amended_witness :
    processFontSizes [] "" = none ∧
    transformCSS "no declarations here" = none ∧
    (processFontSizes
        [("viewport-min-width", "\"abc\""), ("viewport-max-width", "\"1280\"")] "").isSome =
      true :=
  ⟨C3_viewport_failure_amended.1 [] "" (Or.inl rfl),
   C3_viewport_failure_amended.2.1 "no declarations here" (Or.inl (by decide)),
   C3_viewport_failure_amended.2.2 _ "" "\"abc\"" "\"1280\"" (by decide) (by decide)⟩

/-- **C10**: a font-size step pair whose parsed minimum is 0 is never emitted
as a `clamp()` entry: the per-step emission (`stepEntry`, the body of the
`processFontSizes` output loop) falls through JS number truthiness to the
maximum bound alone when that is nonzero, and to no entry at all when the
maximum is 0 or absent; symmetrically when the maximum parses to 0. -/
theorem C10_zero_bound_step (mw xw : JNum) (d : StepData) (q : JQ) :
    (d.min = some q → qIsZero q = true →
      stepEntry mw xw d =
        (if jsTruthyN d.max then some (renderNum d.max ++ "rem") else none)) ∧
    (d.max = some q → qIsZero q = true →
      stepEntry mw xw d =
        (if jsTruthyN d.min then some (renderNum d.min ++ "rem") else none)) := by
  constructor
  · intro hmin hz
    have hf : jsTruthyN d.min = false := by
      rw [hmin]
      simp [jsTruthyN, hz]
    unfold stepEntry
    rw [hf]
    simp only [Bool.false_and, Bool.false_eq_true, if_false]
  · intro hmax hz
    have hf : jsTruthyN d.max = false := by
      rw [hmax]
      simp [jsTruthyN, hz]
    unfold stepEntry
    rw [hf]
    simp only [Bool.and_false, Bool.false_eq_true, if_false]

theorem C10_zero_bound_step_witness :
    stepEntry (some ⟨20, 1⟩) (some ⟨80, 1⟩)
        ⟨1, some ⟨0, 1⟩, some ⟨1250, 1000⟩, some ⟨0, 1⟩⟩ = some "1.25rem" := by
  have h := (C10_zero_bound_step (some ⟨20, 1⟩) (some ⟨80, 1⟩)
      ⟨1, some ⟨0, 1⟩, some ⟨1250, 1000⟩, some ⟨0, 1⟩⟩ ⟨0, 1⟩).1 rfl (by decide)
  rw [h]
  decide

theorem findStep0Go_eq (steps : List StepData) (i n : Nat) (d : StepData)
    (hbefore : ∀ j dj, j < n → steps[j]? = some dj → (dj.originalStep == 0) = false)
    (hn : steps[n]? = some d) (hz : (d.originalStep == 0) = true) :
    findStep0Go i steps = (i : Int) + (n : Int) := by
  induction steps generalizing i n with
  | nil => simp at hn
  | cons s rest ih =>
    cases n with
    | zero =>
      simp only [List.getElem?_cons_zero, Option.some.injEq] at hn
      subst hn
      unfold findStep0Go
      rw [hz]
      simp
    | succ m =>
      have hs : (s.originalStep == 0) = false := hbefore 0 s (Nat.succ_pos m) (by simp)
      unfold findStep0Go
      rw [hs]
      simp only [List.getElem?_cons_succ] at hn
      have := ih (i + 1) m
        (fun j dj hj hg => hbefore (j + 1) dj (Nat.succ_lt_succ hj)
          (by simpa using hg)) hn
      rw [this]
      push_cast
      ring

/-- **C6**: on the deduplicated, sorted step list the re-indexing is
asymmetric.  If position `n` holds the first record whose `originalStep` is 0,
then the located zero index is `n`, a record at a position `i` before it is
renumbered to the negative integer `i − n` (so the numbers run consecutively
up to −1 immediately before the zero pair), the zero pair itself is numbered
0, and a record at any later position keeps its own `originalStep`
unchanged. -/
theorem C6_reindex_asymmetric (steps : List StepData) (n : Nat) (d : StepData)
    (hbefore : ∀ j dj, j < n → steps[j]? = some dj → (dj.originalStep == 0) = false)
    (hn : steps[n]? = some d) (hz : d.originalStep = 0) :
    findStep0Index steps = (n : Int) ∧
    ∀ i di, steps[i]? = some di →
      outputStepNum (findStep0Index steps) i di =
        (if i < n then (i : Int) - (n : Int)
         else if i = n then 0
         else (di.originalStep : Int)) := by
  have hfind : findStep0Index steps = (n : Int) := by
    have h := findStep0Go_eq steps 0 n d hbefore hn (by simp [hz])
    simpa [findStep0Index] using h
  refine ⟨hfind, ?_⟩
  intro i di _
  rw [hfind]
  unfold outputStepNum
  by_cases hlt : i < n
  · rw [if_pos (by exact_mod_cast hlt), if_pos hlt]
  · rw [if_neg (by exact_mod_cast hlt), if_neg hlt]
    by_cases heq : i = n
    · rw [if_pos (by exact_mod_cast heq), if_pos heq]
    · rw [if_neg (fun hc => heq (by exact_mod_cast hc)), if_neg heq]

def c6A : StepData := ⟨5, some ⟨1, 1⟩, some ⟨2, 1⟩, some ⟨1, 1⟩⟩
def c6B : StepData := ⟨0, some ⟨3, 1⟩, some ⟨4, 1⟩, some ⟨3, 1⟩⟩
def c6C : StepData := ⟨7, some ⟨5, 1⟩, some ⟨6, 1⟩, some ⟨5, 1⟩⟩

def c6Steps : List StepData := sortCmp stepCmp (dedupSteps [c6A, c6B, c6C] [])

theorem C6_reindex_asymmetric_witness :
    findStep0Index c6Steps = 1 ∧
    outputStepNum (findStep0Index c6Steps) 0 c6A = -1 ∧
    outputStepNum (findStep0Index c6Steps) 1 c6B = 0 ∧
    outputStepNum (findStep0Index c6Steps) 2 c6C = 7 := by
  have h := C6_reindex_asymmetric c6Steps 1 c6B
    (by
      intro j dj hj hg
      have hj0 : j = 0 := Nat.lt_one_iff.mp hj
      subst hj0
      have he : c6Steps[0]? = some c6A := by decide
      rw [he] at hg
      injection hg with hg
      subst hg
      decide)
    (by decide) (by decide)
  refine ⟨h.1, ?_, ?_, ?_⟩
  · have h0 := h.2 0 c6A (by decide)
    rw [h0]
    decide
  · have h1 := h.2 1 c6B (by decide)
    rw [h1]
    decide
  · have h2 := h.2 2 c6C (by decide)
    rw [h2]
    decide

/-- A raw name whose simplified form (but not the raw form) starts with
`font-family-`, holding a `var(--typography-font-...)` reference, next to the
referenced raw variable. -/
def c8Vars : Table :=
  [("typography-font-a", "var(--typography-font-b)"),
   ("typography-font-b", "Inter")]

/-- **C8 counterexample**: the resolution guard tests the raw name, not the
simplified one.  The raw name `typography-font-family-x` simplifies to
`font-family-x`, which starts with `font-family-`, and its value is a
`var(--typography-font-...)` reference to a raw variable holding `Inter` —
yet the fallback emits the reference text unresolved. -/
theorem C8_simplified_name_not_resolved :
    simplifyName "typography-font-a" = "font-family-a" ∧
    jsStartsWith (simplifyName "typography-font-a") "font-family-" = true ∧
    jsStartsWith "typography-font-a" "font-family-" = false ∧
    (fallbackPass c8Vars [] []).map (fun p => jsGetG p "font-family-a") =
      some (some (some "var(--typography-font-b)")) := by decide

theorem fbWriteVal_no_guard (vars : Table) (n v : String)
    (h : (jsStartsWith n "font-family-" &&
      jsStartsWith (if v == "0px" then "0" else v) "var(--typography-font-") = false) :
    fbWriteVal vars n v = (if v == "0px" then "0" else v) := by
  simp only [fbWriteVal, h, Bool.false_eq_true, if_false]

theorem fbWriteVal_guard (vars : Table) (n v : String) (cap r2 : List Char) (w : String)
    (hg : (jsStartsWith n "font-family-" &&
      jsStartsWith (if v == "0px" then "0" else v) "var(--typography-font-") = true)
    (hm : matchVarRef ((if v == "0px" then "0" else v : String)).data = some (cap, r2))
    (hw : jsGetG vars (String.mk cap) = some w) (hne : (w == "") = false) :
    fbWriteVal vars n v = w := by
  simp only [fbWriteVal]
  rw [if_pos hg, hm]
  dsimp only
  rw [hw]
  dsimp only
  rw [hne]
  rfl

/-- **C8 (amended)**: in the non-rem fallback, an entry `(n, v)` that the pass
consumes is emitted under `simplifyName n` with value `fbWriteVal vars n v`,
and that value resolves the reference one level precisely when the RAW name
`n` starts with `font-family-` (the simplified name is irrelevant to the
guard) and the cleaned value starts with `var(--typography-font-`: then the
referenced raw variable's stored text `w` is emitted verbatim (one level of
indirection, never recursive — `w` is not rewritten even if it is itself a
reference); on every entry where the raw-name or value guard fails the value
is passed through unresolved. -/
theorem C8_fallback_font_family_amended (vars : Table) (processed : List String)
    (n v : String) (prims prims2 : List (String × Option String))
    (hkey : fbWritesKey vars processed n (simplifyName n) = true)
    (hmem : (n, v) ∈ vars)
    (huniq : ∀ m u, (m, u) ∈ vars → fbWritesKey vars processed m (simplifyName n) = true →
      fbWriteVal vars m u = fbWriteVal vars n v)
    (heq : fallbackGo vars processed vars prims = some prims2) :
    jsGetG prims2 (simplifyName n) = some (some (fbWriteVal vars n v)) ∧
    ((jsStartsWith n "font-family-" = false ∨
        jsStartsWith v "var(--typography-font-" = false) → v ≠ "0px" →
      fbWriteVal vars n v = v) ∧
    (∀ cap r2 w, jsStartsWith n "font-family-" = true →
      jsStartsWith v "var(--typography-font-" = true → v ≠ "0px" →
      matchVarRef v.data = some (cap, r2) →
      jsGetG vars (String.mk cap) = some w → w ≠ "" →
      fbWriteVal vars n v = w) := by
  refine ⟨fallbackGo_write vars processed (simplifyName n) n v hkey vars prims prims2
    hmem huniq heq, ?_, ?_⟩
  · intro hor hv
    have hne : (v == "0px") = false := by simpa using hv
    have hcv : (if v == "0px" then "0" else v) = v := by simp [hne]
    have hguard : (jsStartsWith n "font-family-" &&
        jsStartsWith (if v == "0px" then "0" else v) "var(--typography-font-") = false := by
      rcases hor with h | h
      · rw [h, Bool.false_and]
      · rw [hcv, h, Bool.and_false]
    rw [fbWriteVal_no_guard vars n v hguard, hcv]
  · intro cap r2 w hfam hvstart hv hm hw hwne
    have hne : (v == "0px") = false := by simpa using hv
    have hcv : (if v == "0px" then "0" else v) = v := by simp [hne]
    have hguard : (jsStartsWith n "font-family-" &&
        jsStartsWith (if v == "0px" then "0" else v) "var(--typography-font-") = true := by
      rw [hcv, hfam, hvstart]
      rfl
    exact fbWriteVal_guard vars n v cap r2 w hguard (by rw [hcv]; exact hm) hw
      (by simpa using hwne)

/-- A raw `font-family-` name referencing a raw variable whose own text is
again a reference: the emitted value is that text verbatim. -/
def c8VarsB : Table :=
  [("font-family-head", "var(--typography-font-body)"),
   ("typography-font-body", "var(--font-inter)")]

def c8FallbackOut : List (String × Option String) :=
  [("font-family-head", some "var(--font-inter)"),
   ("font-family-body", some "var(--font-inter)")]

theorem C8_fallback_font_family_amended_witness :
    jsGetG c8FallbackOut "font-family-head" = some (some "var(--font-inter)") := by
  have h := C8_fallback_font_family_amended c8VarsB [] "font-family-head"
    "var(--typography-font-body)" [] c8FallbackOut (by decide) (by decide)
    (by
      intro m u hm hw
      rw [show c8VarsB = [("font-family-head", "var(--typography-font-body)"),
        ("typography-font-body", "var(--font-inter)")] from rfl] at hm
      simp only [List.mem_cons, List.not_mem_nil, or_false, Prod.mk.injEq] at hm
      rcases hm with ⟨e1, e2⟩ | ⟨e1, e2⟩ <;> subst e1 <;> subst e2
      · rfl
      · exact absurd hw (by decide))
    (by decide)
  have h1 := h.1
  rw [show simplifyName "font-family-head" = "font-family-head" from by decide] at h1
  rw [h1]
  decide

theorem keysOf_jsSetG {α : Type} (t : List (String × α)) (key : String) (v : α) (k : String)
    (h : k ∈ keysOf (jsSetG t key v)) : k ∈ keysOf t ∨ k = key := by
  obtain ⟨q, hq, hk⟩ := List.mem_map.mp h
  rcases mem_jsSetG t key v q hq with h2 | h2
  · exact Or.inl (List.mem_map.mpr ⟨q, h2, hk⟩)
  · exact Or.inr (by rw [← hk]; exact h2)

theorem modePassGo_light_keys :
    ∀ (rest : List (String × String)) (lm dm : Table) (k : String),
    k ∈ keysOf (modePassGo rest lm dm).1 →
    k ∈ keysOf lm ∨ ∃ n v, (n, v) ∈ rest ∧ jsEndsWith n "-light-mode" = true ∧
      k = simplifyName (stripSuffixS n "-light-mode")
  | [], _, _, _, h => Or.inl h
  | (n, v) :: rest, lm, dm, k, h => by
    simp only [modePassGo] at h
    by_cases hl : jsEndsWith n "-light-mode" = true
    · rw [if_pos hl] at h
      rcases modePassGo_light_keys rest _ dm k h with h2 | ⟨m, u, hm, he, hk⟩
      · rcases keysOf_jsSetG lm _ _ k h2 with h3 | h3
        · exact Or.inl h3
        · exact Or.inr ⟨n, v, List.mem_cons_self _ _, hl, h3⟩
      · exact Or.inr ⟨m, u, List.mem_cons_of_mem _ hm, he, hk⟩
    · rw [if_neg hl] at h
      by_cases hd : jsEndsWith n "-dark-mode" = true
      · rw [if_pos hd] at h
        rcases modePassGo_light_keys rest lm _ k h with h2 | ⟨m, u, hm, he, hk⟩
        · exact Or.inl h2
        · exact Or.inr ⟨m, u, List.mem_cons_of_mem _ hm, he, hk⟩
      · rw [if_neg hd] at h
        rcases modePassGo_light_keys rest lm dm k h with h2 | ⟨m, u, hm, he, hk⟩
        · exact Or.inl h2
        · exact Or.inr ⟨m, u, List.mem_cons_of_mem _ hm, he, hk⟩

theorem modePassGo_dark_keys :
    ∀ (rest : List (String × String)) (lm dm : Table) (k : String),
    k ∈ keysOf (modePassGo rest lm dm).2 →
    k ∈ keysOf dm ∨ ∃ n v, (n, v) ∈ rest ∧ jsEndsWith n "-dark-mode" = true ∧
      k = simplifyName (stripSuffixS n "-dark-mode")
  | [], _, _, _, h => Or.inl h
  | (n, v) :: rest, lm, dm, k, h => by
    simp only [modePassGo] at h
    by_cases hl : jsEndsWith n "-light-mode" = true
    · rw [if_pos hl] at h
      rcases modePassGo_dark_keys rest _ dm k h with h2 | ⟨m, u, hm, he, hk⟩
      · exact Or.inl h2
      · exact Or.inr ⟨m, u, List.mem_cons_of_mem _ hm, he, hk⟩
    · rw [if_neg hl] at h
      by_cases hd : jsEndsWith n "-dark-mode" = true
      · rw [if_pos hd] at h
        rcases modePassGo_dark_keys rest lm _ k h with h2 | ⟨m, u, hm, he, hk⟩
        · rcases keysOf_jsSetG dm _ _ k h2 with h3 | h3
          · exact Or.inl h3
          · exact Or.inr ⟨n, v, List.mem_cons_self _ _, hd, h3⟩
        · exact Or.inr ⟨m, u, List.mem_cons_of_mem _ hm, he, hk⟩
      · rw [if_neg hd] at h
        rcases modePassGo_dark_keys rest lm dm k h with h2 | ⟨m, u, hm, he, hk⟩
        · exact Or.inl h2
        · exact Or.inr ⟨m, u, List.mem_cons_of_mem _ hm, he, hk⟩

theorem remPassGo_keys (vars : Table) :
    ∀ (rest : List (String × String)) (prims : List (String × Option String))
      (processed : List String) (k : String),
    k ∈ keysOf (remPassGo vars rest prims processed).1 →
    k ∈ keysOf prims ∨ ∃ n v, (n, v) ∈ rest ∧ isModeName n = false ∧
      jsEndsWith n "-rem" = true ∧ k = simplifyName (stripSuffixS n "-rem")
  | [], _, _, _, h => Or.inl h
  | (n, v) :: rest, prims, processed, k, h => by
    simp only [remPassGo] at h
    by_cases hmode : isModeName n = true
    · rw [if_pos hmode] at h
      rcases remPassGo_keys vars rest prims processed k h with h2 | ⟨m, u, hm, hmm, hrm, hk⟩
      · exact Or.inl h2
      · exact Or.inr ⟨m, u, List.mem_cons_of_mem _ hm, hmm, hrm, hk⟩
    · rw [if_neg hmode] at h
      have hmode' : isModeName n = false := by rwa [Bool.not_eq_true] at hmode
      by_cases hexcl : isExcluded n = true
      · rw [if_pos hexcl] at h
        rcases remPassGo_keys vars rest prims processed k h with h2 | ⟨m, u, hm, hmm, hrm, hk⟩
        · exact Or.inl h2
        · exact Or.inr ⟨m, u, List.mem_cons_of_mem _ hm, hmm, hrm, hk⟩
      · rw [if_neg hexcl] at h
        by_cases hrem : jsEndsWith n "-rem" = true
        · rw [if_pos hrem] at h
          by_cases hfrs : (jsStartsWith (stripSuffixS n "-rem") "font-size-" ||
              stripSuffixS n "-rem" == "radii-full" ||
              stripSuffixS n "-rem" == "spacing-px") = true
          · rw [if_pos hfrs] at h
            by_cases hrad : (stripSuffixS n "-rem" == "radii-full") = true
            · rw [if_pos hrad] at h
              have hbase : stripSuffixS n "-rem" = "radii-full" := by simpa using hrad
              rcases remPassGo_keys vars rest _ _ k h with h2 | ⟨m, u, hm, hmm, hrm, hk⟩
              · rcases keysOf_jsSetG prims _ _ k h2 with h3 | h3
                · exact Or.inl h3
                · exact Or.inr ⟨n, v, List.mem_cons_self _ _, hmode', hrem,
                    by rw [h3, hbase]; decide⟩
              · exact Or.inr ⟨m, u, List.mem_cons_of_mem _ hm, hmm, hrm, hk⟩
            · rw [if_neg hrad] at h
              by_cases hspc : (stripSuffixS n "-rem" == "spacing-px") = true
              · rw [if_pos hspc] at h
                have hbase : stripSuffixS n "-rem" = "spacing-px" := by simpa using hspc
                rcases remPassGo_keys vars rest _ _ k h with h2 | ⟨m, u, hm, hmm, hrm, hk⟩
                · rcases keysOf_jsSetG prims _ _ k h2 with h3 | h3
                  · exact Or.inl h3
                  · exact Or.inr ⟨n, v, List.mem_cons_self _ _, hmode', hrem,
                      by rw [h3, hbase]; decide⟩
                · exact Or.inr ⟨m, u, List.mem_cons_of_mem _ hm, hmm, hrm, hk⟩
              · rw [if_neg hspc] at h
                rcases remPassGo_keys vars rest prims processed k h with
                  h2 | ⟨m, u, hm, hmm, hrm, hk⟩
                · exact Or.inl h2
                · exact Or.inr ⟨m, u, List.mem_cons_of_mem _ hm, hmm, hrm, hk⟩
          · rw [if_neg hfrs] at h
            by_cases htyp : jsStartsWith (stripSuffixS n "-rem") "typography-font-" = true
            · rw [if_pos htyp] at h
              rcases remPassGo_keys vars rest _ _ k h with h2 | ⟨m, u, hm, hmm, hrm, hk⟩
              · rcases keysOf_jsSetG prims _ _ k h2 with h3 | h3
                · exact Or.inl h3
                · exact Or.inr ⟨n, v, List.mem_cons_self _ _, hmode', hrem, h3⟩
              · exact Or.inr ⟨m, u, List.mem_cons_of_mem _ hm, hmm, hrm, hk⟩
            · rw [if_neg htyp] at h
              rcases remPassGo_keys vars rest _ _ k h with h2 | ⟨m, u, hm, hmm, hrm, hk⟩
              · rcases keysOf_jsSetG prims _ _ k h2 with h3 | h3
                · exact Or.inl h3
                · exact Or.inr ⟨n, v, List.mem_cons_self _ _, hmode', hrem, h3⟩
              · exact Or.inr ⟨m, u, List.mem_cons_of_mem _ hm, hmm, hrm, hk⟩
        · rw [if_neg hrem] at h
          rcases remPassGo_keys vars rest prims processed k h with h2 | ⟨m, u, hm, hmm, hrm, hk⟩
          · exact Or.inl h2
          · exact Or.inr ⟨m, u, List.mem_cons_of_mem _ hm, hmm, hrm, hk⟩

theorem fallbackGo_keys (vars : Table) (processed : List String) :
    ∀ (rest : List (String × String)) (prims prims2 : List (String × Option String)),
    fallbackGo vars processed rest prims = some prims2 →
    ∀ k, k ∈ keysOf prims2 →
    k ∈ keysOf prims ∨ ∃ n v, (n, v) ∈ rest ∧ isModeName n = false ∧ k = simplifyName n
  | [], prims, prims2, heq, k, hk => by
    simp only [fallbackGo] at heq
    rw [← Option.some.inj heq] at hk
    exact Or.inl hk
  | (n, v) :: rest, prims, prims2, heq, k, hk => by
    simp only [fallbackGo] at heq
    by_cases h1 : (processed.contains n || jsEndsWith n "-rem") = true
    · rw [if_pos h1] at heq
      rcases fallbackGo_keys vars processed rest prims prims2 heq k hk with
        h2 | ⟨m, u, hm, hmm, hkk⟩
      · exact Or.inl h2
      · exact Or.inr ⟨m, u, List.mem_cons_of_mem _ hm, hmm, hkk⟩
    · rw [if_neg h1] at heq
      by_cases h2m : isModeName n = true
      · rw [if_pos h2m] at heq
        rcases fallbackGo_keys vars processed rest prims prims2 heq k hk with
          h2 | ⟨m, u, hm, hmm, hkk⟩
        · exact Or.inl h2
        · exact Or.inr ⟨m, u, List.mem_cons_of_mem _ hm, hmm, hkk⟩
      · rw [if_neg h2m] at heq
        have hmode' : isModeName n = false := by rwa [Bool.not_eq_true] at h2m
        by_cases h3 : isExcluded n = true
        · rw [if_pos h3] at heq
          rcases fallbackGo_keys vars processed rest prims prims2 heq k hk with
            h2 | ⟨m, u, hm, hmm, hkk⟩
          · exact Or.inl h2
          · exact Or.inr ⟨m, u, List.mem_cons_of_mem _ hm, hmm, hkk⟩
        · rw [if_neg h3] at heq
          by_cases h4 : jsTruthyS (jsGetG vars (n ++ "-rem")) = true
          · rw [if_pos h4] at heq
            rcases fallbackGo_keys vars processed rest prims prims2 heq k hk with
              h2 | ⟨m, u, hm, hmm, hkk⟩
            · exact Or.inl h2
            · exact Or.inr ⟨m, u, List.mem_cons_of_mem _ hm, hmm, hkk⟩
          · rw [if_neg h4] at heq
            by_cases h5 : (jsStartsWith n "font-family-" &&
                jsStartsWith (if v == "0px" then "0" else v) "var(--typography-font-") = true
            · rw [if_pos h5] at heq
              cases hmv : matchVarRef ((if v == "0px" then "0" else v : String)).data with
              | none =>
                rw [hmv] at heq
                exact absurd heq (by simp)
              | some pr =>
                obtain ⟨cap, r2⟩ := pr
                rw [hmv] at heq
                dsimp only at heq
                rcases fallbackGo_keys vars processed rest _ prims2 heq k hk with
                  h2 | ⟨m, u, hm, hmm, hkk⟩
                · rcases keysOf_jsSetG prims _ _ k h2 with h6 | h6
                  · exact Or.inl h6
                  · exact Or.inr ⟨n, v, List.mem_cons_self _ _, hmode', h6⟩
                · exact Or.inr ⟨m, u, List.mem_cons_of_mem _ hm, hmm, hkk⟩
            · rw [if_neg h5] at heq
              rcases fallbackGo_keys vars processed rest _ prims2 heq k hk with
                h2 | ⟨m, u, hm, hmm, hkk⟩
              · rcases keysOf_jsSetG prims _ _ k h2 with h6 | h6
                · exact Or.inl h6
                · exact Or.inr ⟨n, v, List.mem_cons_self _ _, hmode', h6⟩
              · exact Or.inr ⟨m, u, List.mem_cons_of_mem _ hm, hmm, hkk⟩

theorem foldl_assign_keys (k : String) :
    ∀ (fs : Table) (prims : List (String × Option String)),
    k ∈ keysOf (fs.foldl (fun p kv => jsSetG p kv.1 (some kv.2)) prims) →
    k ∈ keysOf prims ∨ ∃ q, q ∈ fs ∧ q.1 = k
  | [], _, h => Or.inl h
  | q :: rest, prims, h => by
    rw [List.foldl_cons] at h
    rcases foldl_assign_keys k rest _ h with h2 | ⟨p, hp, hk⟩
    · rcases keysOf_jsSetG prims _ _ k h2 with h3 | h3
      · exact Or.inl h3
      · exact Or.inr ⟨q, List.mem_cons_self _ _, h3.symm⟩
    · exact Or.inr ⟨p, List.mem_cons_of_mem _ hp, hk⟩

/-- An ordinary light/dark pair of variables plus the required viewport
globals. -/
def c5Vars : Table :=
  [("viewport-min-width", "\"320\""), ("viewport-max-width", "\"1280\""),
   ("surface-surface-background-light-mode", "var(--color-default-50)"),
   ("surface-surface-background-dark-mode", "var(--color-default-950)")]

/-- **C5 counterexample**: the very same name (`surface-background`) appears
in both the lightMode and the darkMode table for an ordinary light/dark
variable pair, so a name can appear in two of the three tables. -/
theorem C5_name_in_two_tables :
    (processVariables c5Vars "").map (fun r => (keysOf r.lightMode, keysOf r.darkMode)) =
      some (["surface-background"], ["surface-background"]) := by decide

/-- Is `k` a key the light-mode routing can produce from `vars`? -/
def lightProv (vars : Table) (k : String) : Bool :=
  vars.any fun p => jsEndsWith p.1 "-light-mode" &&
    (simplifyName (stripSuffixS p.1 "-light-mode") == k)

/-- Is `k` a key the dark-mode routing can produce from `vars`? -/
def darkProv (vars : Table) (k : String) : Bool :=
  vars.any fun p => jsEndsWith p.1 "-dark-mode" &&
    (simplifyName (stripSuffixS p.1 "-dark-mode") == k)

/-- Is `k` a key the primitives passes can produce from `vars`? -/
def primProv (vars : Table) (k : String) : Bool :=
  jsStartsWith k "font-size-step-" ||
    (vars.any fun p => !(isModeName p.1) &&
      ((simplifyName (stripSuffixS p.1 "-rem") == k) || (simplifyName p.1 == k)))

/-- **C5 (amended)**: the claimed invariant fails — the same name lands in
lightMode and darkMode for every ordinary light/dark pair — but the
provenance separation behind it holds: every lightMode (darkMode) key comes
from a raw name ending `-light-mode` (`-dark-mode`), suffix-stripped and
simplified, and every primitives key comes either from the synthesized
`font-size-step-` family or from a raw name that carries no mode suffix
(via its `-rem`-stripped or plain simplified form).  Mode-suffixed names
never reach primitives and non-mode names never reach the mode tables. -/
theorem C5_table_provenance_amended (vars : Table) (css : String) (r : ProcessedResult)
    (h : processVariables vars css = some r) :
    (∀ k, k ∈ keysOf r.lightMode → lightProv vars k = true) ∧
    (∀ k, k ∈ keysOf r.darkMode → darkProv vars k = true) ∧
    (∀ k, k ∈ keysOf r.primitives → primProv vars k = true) := by
  obtain ⟨prims2, fs, hfb, hfs, hp, hl, hd⟩ := processVariables_parts vars css r h
  refine ⟨?_, ?_, ?_⟩
  · intro k hk
    rw [hl] at hk
    rcases modePassGo_light_keys vars [] [] k hk with h2 | ⟨n, v, hm, he, hkeq⟩
    · simp [keysOf] at h2
    · refine List.any_eq_true.mpr ⟨(n, v), hm, ?_⟩
      dsimp only
      rw [he, Bool.true_and, hkeq, beq_self_eq_true]
  · intro k hk
    rw [hd] at hk
    rcases modePassGo_dark_keys vars [] [] k hk with h2 | ⟨n, v, hm, he, hkeq⟩
    · simp [keysOf] at h2
    · refine List.any_eq_true.mpr ⟨(n, v), hm, ?_⟩
      dsimp only
      rw [he, Bool.true_and, hkeq, beq_self_eq_true]
  · intro k hk
    rw [hp] at hk
    simp only [primProv, Bool.or_eq_true]
    rcases foldl_assign_keys k fs prims2 hk with h2 | ⟨q, hq, hkq⟩
    · rcases fallbackGo_keys vars (remPass vars).2 vars (remPass vars).1 prims2 hfb k h2 with
        h3 | ⟨n, v, hm, hmode, hkeq⟩
      · rcases remPassGo_keys vars vars [] [] k h3 with h4 | ⟨n, v, hm, hmode, hrem, hkeq⟩
        · simp [keysOf] at h4
        · refine Or.inr (List.any_eq_true.mpr ⟨(n, v), hm, ?_⟩)
          dsimp only
          rw [hmode, hkeq, beq_self_eq_true]
          rfl
      · refine Or.inr (List.any_eq_true.mpr ⟨(n, v), hm, ?_⟩)
        dsimp only
        rw [hmode, hkeq, beq_self_eq_true, Bool.or_true]
        rfl
    · have hsw := processFontSizes_keys vars css fs hfs q hq
      rw [hkq] at hsw
      exact Or.inl hsw

theorem C5_table_provenance_amended_witness :
    lightProv c5Vars "surface-background" = true ∧
    darkProv c5Vars "surface-background" = true := by
  have h := C5_table_provenance_amended c5Vars ""
    ⟨[], [("surface-background", "var(--color-default-50)")],
     [("surface-background", "var(--color-default-950)")]⟩ (by decide)
  exact ⟨h.1 "surface-background" (by decide), h.2.1 "surface-background" (by decide)⟩

/-- Does the mode separation store entry name `n` under key `k` in lightMode? -/
def lmWritesKey (n k : String) : Bool :=
  jsEndsWith n "-light-mode" && (simplifyName (stripSuffixS n "-light-mode") == k)

/-- Does the mode separation store entry name `n` under key `k` in darkMode? -/
def dmWritesKey (n k : String) : Bool :=
  !(jsEndsWith n "-light-mode") && jsEndsWith n "-dark-mode" &&
    (simplifyName (stripSuffixS n "-dark-mode") == k)

theorem modePassGo_light_stable (k xval : String) :
    ∀ (rest : List (String × String)) (lm dm : Table),
    (∀ m u, (m, u) ∈ rest → lmWritesKey m k = true →
      simplifyVariableReferences u = xval) →
    jsGetG lm k = some xval →
    jsGetG (modePassGo rest lm dm).1 k = some xval
  | [], _, _, _, hlook => hlook
  | (n, v) :: rest, lm, dm, hws, hlook => by
    have hws' : ∀ m u, (m, u) ∈ rest → lmWritesKey m k = true →
        simplifyVariableReferences u = xval :=
      fun m u h hw => hws m u (List.mem_cons_of_mem _ h) hw
    simp only [modePassGo]
    by_cases hl : jsEndsWith n "-light-mode" = true
    · rw [if_pos hl]
      by_cases hkk : simplifyName (stripSuffixS n "-light-mode") = k
      · have hw : lmWritesKey n k = true := by
          simp only [lmWritesKey]
          rw [hl, hkk, beq_self_eq_true]
          rfl
        have hval := hws n v (List.mem_cons_self _ _) hw
        refine modePassGo_light_stable k xval rest _ dm hws' ?_
        rw [hkk, jsGetG_set_self, hval]
      · refine modePassGo_light_stable k xval rest _ dm hws' ?_
        rw [jsGetG_set_other _ _ _ _ (fun hh => hkk hh.symm)]
        exact hlook
    · rw [if_neg hl]
      by_cases hd : jsEndsWith n "-dark-mode" = true
      · rw [if_pos hd]
        exact modePassGo_light_stable k xval rest lm _ hws' hlook
      · rw [if_neg hd]
        exact modePassGo_light_stable k xval rest lm dm hws' hlook

theorem modePassGo_light_write (k n v : String) (hkey : lmWritesKey n k = true) :
    ∀ (rest : List (String × String)) (lm dm : Table),
    (n, v) ∈ rest →
    (∀ m u, (m, u) ∈ rest → lmWritesKey m k = true →
      simplifyVariableReferences u = simplifyVariableReferences v) →
    jsGetG (modePassGo rest lm dm).1 k = some (simplifyVariableReferences v)
  | [], _, _, hmem, _ => by simp at hmem
  | (m, w) :: rest, lm, dm, hmem, huniq => by
    have huniq' : ∀ m2 u, (m2, u) ∈ rest → lmWritesKey m2 k = true →
        simplifyVariableReferences u = simplifyVariableReferences v :=
      fun m2 u h hw => huniq m2 u (List.mem_cons_of_mem _ h) hw
    by_cases hhd : (m, w) = (n, v)
    · obtain ⟨he, hkk⟩ : jsEndsWith n "-light-mode" = true ∧
          (simplifyName (stripSuffixS n "-light-mode") == k) = true := by
        have h2 := hkey
        simp only [lmWritesKey, Bool.and_eq_true] at h2
        exact h2
      rw [hhd]
      simp only [modePassGo]
      rw [if_pos he]
      refine modePassGo_light_stable k _ rest _ dm huniq' ?_
      rw [show simplifyName (stripSuffixS n "-light-mode") = k from by simpa using hkk,
        jsGetG_set_self]
    · have hmem' : (n, v) ∈ rest := by
        rcases List.mem_cons.mp hmem with h | h
        · exact absurd h.symm hhd
        · exact h
      simp only [modePassGo]
      by_cases hl : jsEndsWith m "-light-mode" = true
      · rw [if_pos hl]
        exact modePassGo_light_write k n v hkey rest _ dm hmem' huniq'
      · rw [if_neg hl]
        by_cases hd : jsEndsWith m "-dark-mode" = true
        · rw [if_pos hd]
          exact modePassGo_light_write k n v hkey rest lm _ hmem' huniq'
        · rw [if_neg hd]
          exact modePassGo_light_write k n v hkey rest lm dm hmem' huniq'

theorem modePassGo_dark_stable (k xval : String) :
    ∀ (rest : List (String × String)) (lm dm : Table),
    (∀ m u, (m, u) ∈ rest → dmWritesKey m k = true →
      simplifyVariableReferences u = xval) →
    jsGetG dm k = some xval →
    jsGetG (modePassGo rest lm dm).2 k = some xval
  | [], _, _, _, hlook => hlook
  | (n, v) :: rest, lm, dm, hws, hlook => by
    have hws' : ∀ m u, (m, u) ∈ rest → dmWritesKey m k = true →
        simplifyVariableReferences u = xval :=
      fun m u h hw => hws m u (List.mem_cons_of_mem _ h) hw
    simp only [modePassGo]
    by_cases hl : jsEndsWith n "-light-mode" = true
    · rw [if_pos hl]
      exact modePassGo_dark_stable k xval rest _ dm hws' hlook
    · rw [if_neg hl]
      by_cases hd : jsEndsWith n "-dark-mode" = true
      · rw [if_pos hd]
        by_cases hkk : simplifyName (stripSuffixS n "-dark-mode") = k
        · have hl2 : jsEndsWith n "-light-mode" = false := by
            rwa [Bool.not_eq_true] at hl
          have hw : dmWritesKey n k = true := by
            simp only [dmWritesKey]
            rw [hl2, hd, hkk, beq_self_eq_true]
            rfl
          have hval := hws n v (List.mem_cons_self _ _) hw
          refine modePassGo_dark_stable k xval rest lm _ hws' ?_
          rw [hkk, jsGetG_set_self, hval]
        · refine modePassGo_dark_stable k xval rest lm _ hws' ?_
          rw [jsGetG_set_other _ _ _ _ (fun hh => hkk hh.symm)]
          exact hlook
      · rw [if_neg hd]
        exact modePassGo_dark_stable k xval rest lm dm hws' hlook

theorem modePassGo_dark_write (k n v : String) (hkey : dmWritesKey n k = true) :
    ∀ (rest : List (String × String)) (lm dm : Table),
    (n, v) ∈ rest →
    (∀ m u, (m, u) ∈ rest → dmWritesKey m k = true →
      simplifyVariableReferences u = simplifyVariableReferences v) →
    jsGetG (modePassGo rest lm dm).2 k = some (simplifyVariableReferences v)
  | [], _, _, hmem, _ => by simp at hmem
  | (m, w) :: rest, lm, dm, hmem, huniq => by
    have huniq' : ∀ m2 u, (m2, u) ∈ rest → dmWritesKey m2 k = true →
        simplifyVariableReferences u = simplifyVariableReferences v :=
      fun m2 u h hw => huniq m2 u (List.mem_cons_of_mem _ h) hw
    by_cases hhd : (m, w) = (n, v)
    · obtain ⟨⟨hnl, hd⟩, hkk⟩ : ((!jsEndsWith n "-light-mode") = true ∧
          jsEndsWith n "-dark-mode" = true) ∧
          (simplifyName (stripSuffixS n "-dark-mode") == k) = true := by
        have h2 := hkey
        simp only [dmWritesKey, Bool.and_eq_true] at h2
        exact h2
      have hl2 : jsEndsWith n "-light-mode" = false := by simpa using hnl
      rw [hhd]
      simp only [modePassGo]
      rw [if_neg (by simp [hl2]), if_pos hd]
      refine modePassGo_dark_stable k _ rest lm _ huniq' ?_
      rw [show simplifyName (stripSuffixS n "-dark-mode") = k from by simpa using hkk,
        jsGetG_set_self]
    · have hmem' : (n, v) ∈ rest := by
        rcases List.mem_cons.mp hmem with h | h
        · exact absurd h.symm hhd
        · exact h
      simp only [modePassGo]
      by_cases hl : jsEndsWith m "-light-mode" = true
      · rw [if_pos hl]
        exact modePassGo_dark_write k n v hkey rest _ dm hmem' huniq'
      · rw [if_neg hl]
        by_cases hd : jsEndsWith m "-dark-mode" = true
        · rw [if_pos hd]
          exact modePassGo_dark_write k n v hkey rest lm _ hmem' huniq'
        · rw [if_neg hd]
          exact modePassGo_dark_write k n v hkey rest lm dm hmem' huniq'

/-- Do both fragments occur in `s`, the first strictly before the second? -/
def occursBefore (s a b : String) : Bool :=
  match jsIndexOf s a, jsIndexOf s b with
  | some i, some j => decide (i < j)
  | _, _ => false

/-- The C1 example input, with the viewport globals the pipeline requires. -/
def c1CSS : String :=
  "--viewport-min-width: \"320\";\n--viewport-max-width: \"1280\";\n--surface-surface-background-light-mode: var(--color-default-50);\n--surface-surface-background-dark-mode: var(--color-default-950);\n"

def c1Vars : Table :=
  [("viewport-min-width", "\"320\""), ("viewport-max-width", "\"1280\""),
   ("surface-surface-background-light-mode", "var(--color-default-50)"),
   ("surface-surface-background-dark-mode", "var(--color-default-950)")]

/-- **C1**: mode routing.  On the example input the transform emits
`--surface-background: var(--color-default-50);` in the base `:root` block
(after `:root`, before the dark-scheme media query), emits
`--surface-background: var(--color-default-950);` inside the media block, and
no `-light-mode` or `-dark-mode` text survives anywhere in the output.  In
general an entry whose raw name ends `-light-mode` (`-dark-mode`) is stored in
the lightMode (darkMode) table under the suffix-stripped, simplified name with
every `var(--X)` reference of its value rewritten by name simplification of
`X`; the uniqueness hypothesis (every entry mapping to the same key carries
the same rewritten value) resolves the last-writer-wins ambiguity. -/
theorem C1_mode_routing :
    ((transformCSS c1CSS).map (fun o =>
        occursBefore o ":root" "--surface-background: var(--color-default-50);" &&
        occursBefore o "--surface-background: var(--color-default-50);"
          "@media (prefers-color-scheme: dark)" &&
        occursBefore o "@media (prefers-color-scheme: dark)"
          "--surface-background: var(--color-default-950);" &&
        !(jsIncludes o "-light-mode") && !(jsIncludes o "-dark-mode")) = some true) ∧
    (∀ (vars : Table) (css : String) (r : ProcessedResult) (n v : String),
      processVariables vars css = some r → (n, v) ∈ vars →
      jsEndsWith n "-light-mode" = true →
      (∀ m u, (m, u) ∈ vars →
        lmWritesKey m (simplifyName (stripSuffixS n "-light-mode")) = true →
        simplifyVariableReferences u = simplifyVariableReferences v) →
      jsGetG r.lightMode (simplifyName (stripSuffixS n "-light-mode")) =
        some (simplifyVariableReferences v)) ∧
    (∀ (vars : Table) (css : String) (r : ProcessedResult) (n v : String),
      processVariables vars css = some r → (n, v) ∈ vars →
      jsEndsWith n "-light-mode" = false → jsEndsWith n "-dark-mode" = true →
      (∀ m u, (m, u) ∈ vars →
        dmWritesKey m (simplifyName (stripSuffixS n "-dark-mode")) = true →
        simplifyVariableReferences u = simplifyVariableReferences v) →
      jsGetG r.darkMode (simplifyName (stripSuffixS n "-dark-mode")) =
        some (simplifyVariableReferences v)) := by
  refine ⟨by decide, ?_, ?_⟩
  · intro vars css r n v hpv hmem he huniq
    obtain ⟨prims2, fs, hfb, hfs, hp, hl, hd⟩ := processVariables_parts vars css r hpv
    rw [hl]
    exact modePassGo_light_write _ n v
      (by
        simp only [lmWritesKey]
        rw [he, beq_self_eq_true]
        rfl)
      vars [] [] hmem huniq
  · intro vars css r n v hpv hmem hnl he huniq
    obtain ⟨prims2, fs, hfb, hfs, hp, hl, hd⟩ := processVariables_parts vars css r hpv
    rw [hd]
    exact modePassGo_dark_write _ n v
      (by
        simp only [dmWritesKey]
        rw [hnl, he, beq_self_eq_true]
        rfl)
      vars [] [] hmem huniq

theorem C1_mode_routing_witness :
    jsGetG (ProcessedResult.lightMode
        ⟨[], [("surface-background", "var(--color-default-50)")],
         [("surface-background", "var(--color-default-950)")]⟩)
      (simplifyName (stripSuffixS "surface-surface-background-light-mode" "-light-mode")) =
      some (simplifyVariableReferences "var(--color-default-50)") ∧
    jsGetG (ProcessedResult.darkMode
        ⟨[], [("surface-background", "var(--color-default-50)")],
         [("surface-background", "var(--color-default-950)")]⟩)
      (simplifyName (stripSuffixS "surface-surface-background-dark-mode" "-dark-mode")) =
      some (simplifyVariableReferences "var(--color-default-950)") := by
  refine ⟨C1_mode_routing.2.1 c1Vars c1CSS _ "surface-surface-background-light-mode"
      "var(--color-default-50)" (by decide) (by decide) (by decide) ?_,
    C1_mode_routing.2.2 c1Vars c1CSS _ "surface-surface-background-dark-mode"
      "var(--color-default-950)" (by decide) (by decide) (by decide) (by decide) ?_⟩
  · intro m u hm hw
    rw [show c1Vars = [("viewport-min-width", "\"320\""), ("viewport-max-width", "\"1280\""),
      ("surface-surface-background-light-mode", "var(--color-default-50)"),
      ("surface-surface-background-dark-mode", "var(--color-default-950)")] from rfl] at hm
    simp only [List.mem_cons, List.not_mem_nil, or_false, Prod.mk.injEq] at hm
    rcases hm with ⟨e1, e2⟩ | ⟨e1, e2⟩ | ⟨e1, e2⟩ | ⟨e1, e2⟩ <;> subst e1 <;> subst e2 <;>
      first
        | rfl
        | exact absurd hw (by decide)
  · intro m u hm hw
    rw [show c1Vars = [("viewport-min-width", "\"320\""), ("viewport-max-width", "\"1280\""),
      ("surface-surface-background-light-mode", "var(--color-default-50)"),
      ("surface-surface-background-dark-mode", "var(--color-default-950)")] from rfl] at hm
    simp only [List.mem_cons, List.not_mem_nil, or_false, Prod.mk.injEq] at hm
    rcases hm with ⟨e1, e2⟩ | ⟨e1, e2⟩ | ⟨e1, e2⟩ | ⟨e1, e2⟩ <;> subst e1 <;> subst e2 <;>
      first
        | rfl
        | exact absurd hw (by decide)

theorem strCmp_nonneg_flip (x y : String) (h : ¬ strCmp x y < 0) : strCmp y x ≤ 0 := by
  unfold strCmp at h ⊢
  cases h1 : strLtB x y <;> cases h2 : strLtB y x <;> rw [h1, h2] at h <;>
    revert h <;> decide

theorem insertCmp_head_cases (x : String) (l : List String) :
    (insertCmp strCmp x l).head? = some x ∨ (insertCmp strCmp x l).head? = l.head? := by
  cases l with
  | nil => exact Or.inl rfl
  | cons y ys =>
    unfold insertCmp
    by_cases hc : strCmp x y < 0
    · rw [if_pos hc]
      exact Or.inl rfl
    · rw [if_neg hc]
      exact Or.inr rfl

theorem insertCmp_chain (x : String) :
    ∀ (l : List String), List.Chain' (fun a b => strCmp a b ≤ 0) l →
    List.Chain' (fun a b => strCmp a b ≤ 0) (insertCmp strCmp x l)
  | [], _ => List.chain'_singleton x
  | y :: ys, hch => by
    obtain ⟨hhd, htl⟩ := List.chain'_cons'.mp hch
    unfold insertCmp
    by_cases hc : strCmp x y < 0
    · rw [if_pos hc]
      refine List.chain'_cons'.mpr ⟨?_, hch⟩
      intro h hh
      obtain rfl : y = h := by simpa using hh
      exact le_of_lt hc
    · rw [if_neg hc]
      refine List.chain'_cons'.mpr ⟨?_, insertCmp_chain x ys htl⟩
      intro h hh
      rcases insertCmp_head_cases x ys with he | he
      · rw [he] at hh
        obtain rfl : x = h := by simpa using hh
        exact strCmp_nonneg_flip x y hc
      · rw [he] at hh
        exact hhd h hh

theorem sortCmp_chain (l : List String) :
    List.Chain' (fun a b => strCmp a b ≤ 0) (sortCmp strCmp l) := by
  unfold sortCmp
  suffices hgen : ∀ (xs acc : List String),
      List.Chain' (fun a b => strCmp a b ≤ 0) acc →
      List.Chain' (fun a b => strCmp a b ≤ 0)
        (xs.foldl (fun acc2 x => insertCmp strCmp x acc2) acc) by
    exact hgen l [] List.chain'_nil
  intro xs
  induction xs with
  | nil => exact fun acc h => h
  | cons x rest ih =>
    intro acc h
    rw [List.foldl_cons]
    exact ih _ (insertCmp_chain x acc h)

theorem insertCmp_mem {α : Type} (c : α → α → Int) (x a : α) :
    ∀ (l : List α), a ∈ insertCmp c x l ↔ a = x ∨ a ∈ l
  | [] => by simp [insertCmp]
  | y :: ys => by
    unfold insertCmp
    by_cases hc : c x y < 0
    · rw [if_pos hc]
      simp [List.mem_cons]
    · rw [if_neg hc]
      rw [List.mem_cons, insertCmp_mem c x a ys, List.mem_cons]
      tauto

theorem sortCmp_mem {α : Type} (c : α → α → Int) (a : α) (l : List α) :
    a ∈ sortCmp c l ↔ a ∈ l := by
  unfold sortCmp
  suffices hgen : ∀ (xs acc : List α),
      (a ∈ xs.foldl (fun acc2 x => insertCmp c x acc2) acc ↔ a ∈ xs ∨ a ∈ acc) by
    rw [hgen l []]
    simp
  intro xs
  induction xs with
  | nil =>
    intro acc
    simp
  | cons x rest ih =>
    intro acc
    rw [List.foldl_cons, ih (insertCmp c x acc), insertCmp_mem c x a acc, List.mem_cons]
    tauto

/-- Known and new color families plus a non-color group, with the viewport
globals. -/
def c7CSS : String :=
  "--viewport-min-width: \"320\";\n--viewport-max-width: \"1280\";\n--color-accent-500: #123456;\n--color-brand-500: #234567;\n--color-alpha-500: #345678;\n--container-max: 90rem;\n"

/-- **C7**: dynamically discovered color families.  A family is a new group
exactly when it is detected among the primitives and absent from the known
color list; the new groups are sorted among themselves by the code-unit
comparator; the final emission order is the known color groups, then the new
color groups, then the other-groups list; and on a concrete input with the
known `color-accent`, undeclared `color-brand` and `color-alpha`, and a
`container` primitive, the output emits accent before alpha before brand
(alphabetical among the new groups despite brand being detected first) before
the container group. -/
theorem C7_new_color_groups (prims : List (String × Option String)) (g : String) :
    (g ∈ newColorGroups prims ↔
      g ∈ detectColorGroups prims ∧ knownColorOrder.contains g = false) ∧
    List.Chain' (fun a b => strCmp a b ≤ 0) (newColorGroups prims) ∧
    finalGroupOrder prims = knownColorOrder ++ newColorGroups prims ++ otherGroupsOrder ∧
    ((transformCSS c7CSS).map (fun o =>
        occursBefore o "--color-accent-500" "--color-alpha-500" &&
        occursBefore o "--color-alpha-500" "--color-brand-500" &&
        occursBefore o "--color-brand-500" "--container-max") = some true) := by
  refine ⟨?_, sortCmp_chain _, rfl, by decide⟩
  unfold newColorGroups
  rw [sortCmp_mem, List.mem_filter]
  simp
